import Mathlib

/-!
Verification of the `eep-emu` EEPROM-emulation decoder (NEC V850E2 / RH850).

The definitions below are a shallow embedding of the TypeScript sources
(`global.ts` / `nec_emulator`, `v850e2.ts`, `rh850.ts`).  Node `Buffer`s are
modelled as `List Nat` whose elements are bytes (reads normalise with `% 256`,
exactly as a real `Buffer` can only ever produce byte values); JavaScript
numbers used as addresses are modelled as `Int` where they can go negative,
and JavaScript exceptions are modelled with `Except String`.  Loops are
modelled by fuel-indexed structural recursion with a fuel that provably
exceeds the loop's iteration bound (fuel exhaustion is an `Except.error`,
which never triggers on the reachable bounds).
-/

deriving instance DecidableEq for Except

namespace EepEmu

/-- Byte read from a buffer: a Node `Buffer` index always yields a value
below 256 (missing indices are handled separately at each use site). -/
def byteAt (buf : List Nat) (i : Nat) : Nat := (buf.getD i 0) % 256

/-- JavaScript `ToInt32` of a non-negative number. -/
def toInt32 (n : Nat) : Int :=
  let m : Nat := n % 2 ^ 32
  if m < 2 ^ 31 then (m : Int) else (m : Int) - 2 ^ 32

/-- JavaScript signed right shift `n >> k` for a non-negative `n`
(arithmetic shift = floor division of the 32-bit reinterpretation). -/
def jsSar (n : Nat) (k : Nat) : Int := Int.fdiv (toInt32 n) (2 ^ k)

/-- Relative-index resolution of `TypedArray.prototype.subarray`: negative
indices count from the end of the buffer, and the result is clamped to
`[0, length]`. -/
def jsClamp (len : Nat) (i : Int) : Int :=
  if i < 0 then max ((len : Int) + i) 0 else min i (len : Int)

/-- `TypedArray.prototype.subarray(s, e)`. -/
def jsSubarray (buf : List Nat) (s e : Int) : List Nat :=
  (buf.drop (jsClamp buf.length s).toNat).take
    ((jsClamp buf.length e) - (jsClamp buf.length s)).toNat

/-- `Buffer.prototype.copy(target, tstart)` as seen from the target:
copies `src` into `target` starting at `tstart`, truncating at the end of
the target.  The target length never changes. -/
def jsCopyInto (target src : List Nat) (tstart : Nat) : List Nat :=
  let n := min src.length (target.length - tstart)
  target.take tstart ++ src.take n ++ target.drop (tstart + n)

/-- `Global.int32ToWord(num, lEndian)`: range-checks `num` and serializes
its 32-bit pattern into 4 bytes (little or big endian).  The masked JS bit
operations in the source all extract bytes of `num mod 2^32`. -/
def int32ToWord (num : Int) (lEndian : Bool) : Except String (List Nat) :=
  if num < -2147483648 ∨ num > 0xffffffff then
    Except.error "RangeError: number is not int32"
  else
    let m := (num % (2 ^ 32 : Int)).toNat
    let w := [m % 2 ^ 8, m / 2 ^ 8 % 2 ^ 8, m / 2 ^ 16 % 2 ^ 8, m / 2 ^ 24]
    Except.ok (if lEndian then w else w.reverse)

/-- `Global.readUint32(buf, addr, lEndian)`: pads buffers shorter than 4
bytes (at the most significant positions), range-checks `addr + 4` against
the (padded) length, then assembles the 32-bit value from the 4-byte
`subarray`; missing bytes of a clamped subarray read as 0 (JS `undefined`
shifted is 0). -/
def padTo4 (buf0 : List Nat) (lEndian : Bool) : List Nat :=
  if buf0.length < 4 then
    (if lEndian then buf0 ++ List.replicate (4 - buf0.length) 0
     else List.replicate (4 - buf0.length) 0 ++ buf0)
  else buf0

/-- The value assembled from a 4-byte word slice (missing bytes read 0). -/
def wordValue (word : List Nat) (lEndian : Bool) : Nat :=
  if lEndian then
    word.getD 0 0 % 256 + 2 ^ 8 * (word.getD 1 0 % 256) + 2 ^ 16 * (word.getD 2 0 % 256) +
      2 ^ 24 * (word.getD 3 0 % 256)
  else
    word.getD 3 0 % 256 + 2 ^ 8 * (word.getD 2 0 % 256) + 2 ^ 16 * (word.getD 1 0 % 256) +
      2 ^ 24 * (word.getD 0 0 % 256)

def readUint32 (buf0 : List Nat) (addr : Int) (lEndian : Bool) : Except String Nat :=
  if ((padTo4 buf0 lEndian).length : Int) < addr + 4 then
    Except.error "RangeError: cannot read word at addr"
  else
    Except.ok (wordValue (jsSubarray (padTo4 buf0 lEndian) addr (addr + 4)) lEndian)

/-- `Global.checkSum8bit(buf, start, stop)`: 8-bit additive checksum of the
inclusive byte range.  If the range runs past the buffer the JS sum becomes
`NaN` and `NaN & 0xff` is 0. -/
def checkSum8bit (buf : List Nat) (start stop : Nat) : Nat :=
  if stop < buf.length then
    (((List.range (stop + 1 - start)).map (fun k => byteAt buf (start + k))).sum) % 256
  else 0

/-- Little-endian 4-byte serialization of one 32-bit word (the value of
`int32ToWord w true` for a word `w < 2^32`). -/
def leBytes (w : Nat) : List Nat :=
  [w % 2 ^ 8, w / 2 ^ 8 % 2 ^ 8, w / 2 ^ 16 % 2 ^ 8, w / 2 ^ 24]

/-- Little-endian serialization of a word sequence. -/
def serializeLE (ws : List Nat) : List Nat := ws.flatMap leBytes

/-- Specification-side reading of "the 32-bit little-endian word stored at
byte offset `k`" of a buffer. -/
def wordAtLE (buf : List Nat) (k : Nat) : Nat :=
  byteAt buf k + 2 ^ 8 * byteAt buf (k + 1) + 2 ^ 16 * byteAt buf (k + 2) +
    2 ^ 24 * byteAt buf (k + 3)

/-! ### `NecEmulator` (shared base class) -/

/-- The `NecEmulator` constructor's geometry stage: rejects an image whose
length is zero or not a multiple of the block size, otherwise yields
`nBlocks = length / blockSize`. -/
def necConstruct (len blockSize : Nat) : Except String Nat :=
  if len = 0 ∨ len % blockSize ≠ 0 then
    Except.error "RangeError: invalid dataflash Buffer size"
  else Except.ok (len / blockSize)

/-- `DataFlashBlock` record. -/
structure DFBlock where
  id : Nat
  isValid : Bool
  eraseCount : Nat
  rwp : Nat
  buf : List Nat
deriving DecidableEq, Repr

instance : Inhabited DFBlock := ⟨⟨0, false, 0, 0, []⟩⟩

/-- The distinct erase counters of the valid blocks, in first-encounter
order (the `eraseCounts` array built by the catalog loop). -/
def gatherEraseCounts (blocks : List DFBlock) : List Nat :=
  blocks.foldl
    (fun ecs b => if b.isValid ∧ b.eraseCount ∉ ecs then ecs ++ [b.eraseCount] else ecs) []

/-- The per-counter group built by the catalog loop: indices `i` of valid
blocks with the given erase counter, pushed in ascending iteration order. -/
def groupOf (blocks : List DFBlock) (ec : Nat) : List Nat :=
  (List.range blocks.length).filter
    (fun i => (blocks.getD i default).isValid ∧ (blocks.getD i default).eraseCount = ec)

/-- `NecEmulator.getActiveBlocksOrderedList`: sorts the distinct erase
counters ascending and concatenates each counter's (sorted) index group. -/
def getActiveBlocksOrderedList (blocks : List DFBlock) : List Nat :=
  ((gatherEraseCounts blocks).insertionSort (· ≤ ·)).flatMap
    (fun ec => (groupOf blocks ec).insertionSort (· ≤ ·))

/-- One block-sized window of the image: `Buffer.alloc(blockSize)` filled by
`dfBuffer.copy(blockBuffer, 0, i * blockSize)` (zero padding if the source
runs out). -/
def blockWindow (df : List Nat) (bs i : Nat) : List Nat :=
  let c := (df.drop (i * bs)).take bs
  c ++ List.replicate (bs - c.length) 0

/-- The rwp registration pass shared by both families: each collected rwp
address is stored into the block it addresses (`floor(rwpAddr / blockSize)`);
a missing catalog index is a JS `TypeError`. -/
def assignRwps (blockSize : Nat) (blocks : List DFBlock) (rwps : List Nat) :
    Except String (List DFBlock) :=
  rwps.foldlM
    (fun bs v =>
      let k := v / blockSize
      match bs[k]? with
      | some b => Except.ok (bs.set k { b with rwp := v })
      | none => Except.error "TypeError: cannot set rwp of undefined block")
    blocks

/-! ### Family A: `Emu_V850e2` -/

/-- `Emu_V850e2.isValidBlock`: length check, then the guard words at
`0x10`, `0x18`, `0x20` must equal the active flag `0x55555555` (the JS `&&`
chain short-circuits, so the reads only happen while the check is alive). -/
def isValidBlockA (buf : List Nat) : Except String Bool :=
  if buf.length ≠ 0x1000 then Except.ok false
  else do
    let w1 ← readUint32 buf 0x10 true
    if w1 ≠ 0x55555555 then Except.ok false else do
      let w2 ← readUint32 buf 0x18 true
      if w2 ≠ 0x55555555 then Except.ok false else do
        let w3 ← readUint32 buf 0x20 true
        Except.ok (w3 = 0x55555555)

/-- One catalog entry of `Emu_V850e2.getBlocksData`: note that the erase
counter is read from `subarray(0x28, 0x2b)` — an exclusive-end slice of
only three bytes, which `readUint32` zero-pads at the top. -/
def mkBlockA (df : List Nat) (i : Nat) : Except String DFBlock := do
  let buf := blockWindow df 0x1000 i
  let valid ← isValidBlockA buf
  let ec ← readUint32 (jsSubarray buf 0x28 0x2b) 0 true
  Except.ok { id := i, isValid := valid, eraseCount := ec, rwp := 0, buf := buf }

/-- `Emu_V850e2.getBlocksData`: build every window's catalog entry, gather
the (doubled) rwp values of the valid blocks, then register each rwp
against the block it addresses. -/
def getBlocksDataA (df : List Nat) (nB : Nat) : Except String (List DFBlock) := do
  let blocks ← (List.range nB).mapM (mkBlockA df)
  let rwps ← (blocks.filter (·.isValid)).mapM
    (fun b => do
      let v ← readUint32 (jsSubarray b.buf 0x30 0x33) 0 true
      Except.ok (v * 2))
  assignRwps 0x1000 blocks rwps

/-- Inner loop of `Emu_V850e2.getOverlapData`: read words backward from the
end of the given block buffer until the packet is complete.  The do-while
body runs at least once; the fuel strictly exceeds the worst-case iteration
count `fixL`. -/
def overlapLoop (blockBuf : List Nat) (fixL startL : Nat) :
    Nat → List Nat → Nat → Except String (List Nat)
  | 0, _, _ => Except.error "loop fuel exhausted"
  | fuel + 1, endData, ofs => do
    let addr : Int := (blockBuf.length : Int) - 8 - (ofs : Int) * 8
    let word ← readUint32 blockBuf addr true
    let endData := endData ++ [word]
    if endData.length + startL < fixL then overlapLoop blockBuf fixL startL fuel endData (ofs + 1)
    else Except.ok endData

/-- `Emu_V850e2.getOverlapData`. -/
def getOverlapData (blockBuf : List Nat) (fixL startL : Nat) : Except String (List Nat) :=
  overlapLoop blockBuf fixL startL (fixL + 1) [] 0

/-- Rolling checksum of `Emu_V850e2.readDataEntry`: start from
`0xffffffff - id` and subtract every accumulated word with unsigned 32-bit
wraparound (`cks -= word; cks = cks >>> 0`). -/
def rollingCks (id : Nat) (ws : List Nat) : Nat :=
  ws.foldl (fun c w => (c + (2 ^ 32 - w % 2 ^ 32)) % 2 ^ 32) (0xffffffff - id)

/-- Accumulation do-while of `Emu_V850e2.readDataEntry`: walk backward from
`widx` through the absolute image space; on hitting the block's rwp fetch
the remainder from the end of the successor block, or fail if there is
none.  The do-while body runs at least once; fuel strictly exceeds the
iteration bound `fixL`. -/
def accumLoopA (df : List Nat) (blocks : List DFBlock) (widx : Int) (fixL : Nat)
    (rwp : Nat) (nextBlock : Option Nat) :
    Nat → List Nat → Nat → Except String (List Nat)
  | 0, _, _ => Except.error "loop fuel exhausted"
  | fuel + 1, data, ofs =>
    let addr : Int := (widx - (ofs : Int)) * 8
    if addr = (rwp : Int) then
      match nextBlock with
      | some nb =>
        match blocks[nb]? with
        | some b => do
          let finishingData ← getOverlapData b.buf fixL data.length
          Except.ok (data ++ finishingData)
        | none => Except.error "TypeError: missing catalog entry for next block"
      | none => Except.error "RangeError: missing next block, invalid data"
    else do
      let word ← readUint32 df addr true
      let data := data ++ [word]
      if data.length < fixL then accumLoopA df blocks widx fixL rwp nextBlock fuel data (ofs + 1)
      else Except.ok data

/-- The accumulation phase of `Emu_V850e2.readDataEntry`: the first word
read at `widx * 8` carries the record byte length in its low 16 bits,
rounded up to the next word multiple (`Math.ceil((word & 0xffff) / 4)`). -/
def accumPhaseA (df : List Nat) (blocks : List DFBlock) (widx : Int) (rwp : Nat)
    (nextBlock : Option Nat) : Except String (List Nat) := do
  let word ← readUint32 df (widx * 8) true
  let fixL : Nat := (word % 0x10000 + 3) / 4
  accumLoopA df blocks widx fixL rwp nextBlock (fixL + 1) [] 0

/-- `Emu_V850e2.readDataEntry`: accumulate, then compare the rolling
checksum against the reference slot's checksum word. -/
def readDataEntryA (df : List Nat) (blocks : List DFBlock) (widx : Int)
    (id cksRef : Nat) (rwp : Nat) (nextBlock : Option Nat) : Except String (List Nat) := do
  let data ← accumPhaseA df blocks widx rwp nextBlock
  if rollingCks id data ≠ cksRef then Except.error "Error: invalid checksum for id"
  else Except.ok data

/-- `EepData` record as produced by family A. -/
structure EepDataA where
  id : Nat
  widx : Int
  widx_abs : Int
  length : Nat
  data : List Nat
  dataBuf : List Nat
  addr : Nat
deriving DecidableEq, Repr

/-- The family-A result table (`this.eepData`), a JS object keyed by id. -/
def MapA : Type := Nat → Option EepDataA

def emptyMapA : MapA := fun _ => none

def updateA (m : MapA) (id : Nat) (e : EepDataA) : MapA :=
  fun j => if j = id then some e else m j

/-- The per-word serialization loop filling `dataBuf`
(`int32ToWord(data[j]).copy(dataBuf, j * 4)` for each `j`). -/
def fillLoop (target : List Nat) : List Nat → Nat → Except String (List Nat)
  | [], _ => Except.ok target
  | w :: ws, j => do
    let wb ← int32ToWord (w : Int) true
    fillLoop (jsCopyInto target wb (j * 4)) ws (j + 1)

def fillBuf (target data : List Nat) : Except String (List Nat) :=
  fillLoop target data 0

/-- One reference-slot body of `Emu_V850e2.populateBlockData`: decode the
slot word, read the slot's checksum word, resolve the record inside the
`try`/`catch` (a failed resolution leaves `dataEntry` empty), and insert
the decoded entry — overwriting any earlier entry for the same id. -/
def popBodyA (df : List Nat) (blocks : List DFBlock) (blockNum blockId rwp : Nat)
    (nextBlock : Option Nat) (blockBuf : List Nat) (st : MapA) (i word : Nat) :
    Except String MapA := do
  let refAddr := i * 0x10 + 0x1000 * blockNum
  let widx := jsSar word 0x10
  let id := word % 0x10000
  let cksRef ← readUint32 blockBuf ((i : Int) * 0x10 + 0x8) true
  let dataEntry : List Nat :=
    match readDataEntryA df blocks widx id cksRef rwp nextBlock with
    | Except.ok d => d
    | Except.error _ => []
  if dataEntry.length ≠ 0 then do
    let dataBuf ← fillBuf (List.replicate (dataEntry.length * 4) 0) dataEntry
    Except.ok (updateA st id
      { id := id, widx := widx, widx_abs := widx + 0x1000 * (blockId : Int),
        length := dataEntry.length, data := dataEntry, dataBuf := dataBuf, addr := refAddr })
  else Except.ok st

/-- Reference-table walk of `Emu_V850e2.populateBlockData`: process slots
until the end marker `0xffffffff`, an uncaught read failure, or (when the
block has a recorded rwp) the next slot address reaching the rwp.  The slot
index `i` grows every iteration and the next-word read fails once
`i * 0x10 + 4` passes the block size, so the fuel `0x200` is never
exhausted on a real walk. -/
def popLoopA (df : List Nat) (blocks : List DFBlock) (blockNum blockId rwp : Nat)
    (nextBlock : Option Nat) (blockBuf : List Nat) :
    Nat → Nat → Nat → MapA → Except String MapA
  | 0, _, _, _ => Except.error "loop fuel exhausted"
  | fuel + 1, i, word, st =>
    if word = 0xffffffff then Except.ok st
    else do
      let st ← popBodyA df blocks blockNum blockId rwp nextBlock blockBuf st i word
      let word ← readUint32 blockBuf (((i : Int) + 1) * 0x10) true
      let addr := (i + 1) * 0x10 + 0x1000 * blockNum
      if rwp ≠ 0 ∧ addr ≥ rwp then Except.ok st
      else popLoopA df blocks blockNum blockId rwp nextBlock blockBuf fuel (i + 1) word st

/-- `Emu_V850e2.populateBlockData` for one active block (`blockId` indexes
`activeBlocks`): the newest block in scan order has no successor, any other
block's successor is the next entry of `activeBlocks`. -/
def popBlockA (df : List Nat) (blocks : List DFBlock) (active : List Nat)
    (st : MapA) (blockId : Nat) : Except String MapA := do
  match active[blockId]? with
  | none => Except.error "TypeError: active block index out of range"
  | some blockNum =>
    let isLastBlock := some blockNum = active.getLast?
    let nextBlock := if isLastBlock then none else active[blockId + 1]?
    match blocks[blockNum]? with
    | none => Except.error "TypeError: missing catalog entry"
    | some block => do
      let word ← readUint32 block.buf 0x40 true
      popLoopA df blocks blockNum blockId block.rwp nextBlock block.buf 0x200 4 word st

/-- Decoded state of a finished `Emu_V850e2` constructor run. -/
structure StateA where
  blocks : List DFBlock
  active : List Nat
  eep : MapA

/-- The `Emu_V850e2` constructor: geometry check, block catalog, erase
ordering, then the per-block record reconstruction. -/
def v850Construct (df : List Nat) : Except String StateA := do
  let nB ← necConstruct df.length 0x1000
  let blocks ← getBlocksDataA df nB
  let active := getActiveBlocksOrderedList blocks
  let eep ← (List.range active.length).foldlM (popBlockA df blocks active) emptyMapA
  Except.ok { blocks := blocks, active := active, eep := eep }

/-- Final family-A record table lookup (none on a failed construction). -/
def v850Eep (df : List Nat) (id : Nat) : Option EepDataA :=
  match v850Construct df with
  | Except.ok st => st.eep id
  | Except.error _ => none

/-! ### Family B: `Emu_RH850` -/

/-- `RhTable` header record (`r_eel_descriptor_t`).  The packed halves read
with JS `>> 0x10` are signed, hence `Int`. -/
structure RhTable where
  blockSize : Nat
  prepBlocks_min : Int
  pointer_rom : Nat
  pointer_ram : Nat
  entries : Nat
  eraseSuspend : Int
deriving DecidableEq, Repr

/-- `Emu_RH850.getDataTable`: bounds-check the 16-byte header against the
code-flash length, then read the four header words. -/
def getDataTable (cf : List Nat) (tableHeaderAddr : Nat) : Except String RhTable :=
  if cf.length < tableHeaderAddr + 0x10 then
    Except.error "RangeError: invalid table header address"
  else do
    let w0 ← readUint32 cf (tableHeaderAddr : Int) true
    let w1 ← readUint32 cf ((tableHeaderAddr : Int) + 0x04) true
    let w2 ← readUint32 cf ((tableHeaderAddr : Int) + 0x08) true
    let w3 ← readUint32 cf ((tableHeaderAddr : Int) + 0x0c) true
    Except.ok { blockSize := w0 % 0x10000, prepBlocks_min := jsSar w0 0x10,
                pointer_rom := w1, pointer_ram := w2,
                entries := w3 % 0x10000, eraseSuspend := jsSar w3 0x10 }

/-- The id/length table buffer: `Buffer.alloc(entries * 4)` filled by
`cfBuf.copy(table, 0, rom, rom + entries * 4)` (zero padding past the end
of the code flash). -/
def tableBuf (cf : List Nat) (rom entries : Nat) : List Nat :=
  let src := (cf.drop rom).take (entries * 4)
  src ++ List.replicate (entries * 4 - src.length) 0

/-- `EepData` record as produced by family B.  The JS object stores
`length = encLen / 4` where `encLen` is the table-encoded byte length; we
keep `encLen` itself (`length` can be fractional in JS) and translate every
use of `length` through it. -/
structure EepDataB where
  id : Nat
  widx : Int
  widx_abs : Int
  encLen : Nat
  data : List Nat
  dataBuf : List Nat
  addr : Nat
deriving DecidableEq, Repr

/-- The family-B result table (`this.eepData`). -/
def MapB : Type := Nat → Option EepDataB

def emptyMapB : MapB := fun _ => none

def updateB (m : MapB) (id : Nat) (e : EepDataB) : MapB :=
  fun j => if j = id then some e else m j

/-- One entry of `Emu_RH850.populateDataInfoWTable`: read the 4-byte table
entry (`length` in the signed high half, `id` in the low half), pre-populate
the id's empty stub — `Buffer.alloc(length * 4)` throws on a negative
signed length — and fail on a length above the block size. -/
def popTableStep (cf : List Nat) (tb : RhTable) (eep : MapB) (i : Nat) :
    Except String MapB := do
  let word ← readUint32 (tableBuf cf tb.pointer_rom tb.entries) ((i : Int) * 4) true
  let length : Int := jsSar word 0x10
  let id := word % 0x10000
  if length < 0 then Except.error "RangeError: invalid Buffer.alloc size"
  else
    let encLen := length.toNat
    let eep := updateB eep id
      { id := id, widx := 0, widx_abs := 0, encLen := encLen, data := [],
        dataBuf := List.replicate (encLen * 4) 0, addr := 0 }
    if encLen > 0x800 then Except.error "Error: invalid rh850 table entry"
    else Except.ok eep

/-- `Emu_RH850.populateDataInfoWTable`. -/
def populateDataInfoWTable (cf : List Nat) (tb : RhTable) : Except String MapB :=
  (List.range tb.entries).foldlM (popTableStep cf tb) emptyMapB

/-- `Emu_RH850.isValidBlock`: guard words at `0x4`, `0x8`, `0xc` must equal
the active flag, and the 8-bit checksums over the erase-counter field
(`0x10`–`0x13`) and the rwp field (`0x14`–`0x17`) must both equal `0xff`
(`&&` short-circuits left to right). -/
def isValidBlockB (buf : List Nat) : Except String Bool := do
  let w1 ← readUint32 buf 0x4 true
  if w1 ≠ 0x55555555 then Except.ok false else do
    let w2 ← readUint32 buf 0x8 true
    if w2 ≠ 0x55555555 then Except.ok false else do
      let w3 ← readUint32 buf 0xc true
      if w3 ≠ 0x55555555 then Except.ok false
      else Except.ok (checkSum8bit buf 0x10 0x13 = 0xff ∧ checkSum8bit buf 0x14 0x17 = 0xff)

/-- One catalog entry of `Emu_RH850.getBlocksData`; like family A the erase
counter comes from the three-byte slice `subarray(0x10, 0x13)`. -/
def mkBlockB (df : List Nat) (i : Nat) : Except String DFBlock := do
  let buf := blockWindow df 0x800 i
  let valid ← isValidBlockB buf
  let ec ← readUint32 (jsSubarray buf 0x10 0x13) 0 true
  Except.ok { id := i, isValid := valid, eraseCount := ec, rwp := 0, buf := buf }

/-- `Emu_RH850.getBlocksData`: catalog every window, gather the rwp values
(three-byte slice at `0x14`, not doubled) of the valid blocks, then
register each against the block it addresses. -/
def getBlocksDataB (df : List Nat) (nB : Nat) : Except String (List DFBlock) := do
  let blocks ← (List.range nB).mapM (mkBlockB df)
  let rwps ← (blocks.filter (·.isValid)).mapM
    (fun b => readUint32 (jsSubarray b.buf 0x14 0x17) 0 true)
  assignRwps 0x800 blocks rwps

/-- `Emu_RH850.readDataEntry`: check the three guard words and the in-block
bound of `widx`, look up the id's stub, then push `ceil(encLen / 4)` words
read backward from `widx` onto the entry's `data`, rewrite its `dataBuf`
and overwrite `widx`/`widx_abs`/`addr`.  The JS entry is aliased into
`this.eepData`, so the mutation is modelled by returning the updated map
together with the returned entry. -/
def readDataEntryB (eep : MapB) (block : DFBlock) (refAddr : Nat) :
    Except String (MapB × Option EepDataB) := do
  let refAbsAddr := refAddr + 0x800 * block.id
  let checkW1 ← readUint32 block.buf ((refAddr : Int) - 0x4) true
  let checkW2 ← readUint32 block.buf ((refAddr : Int) - 0x8) true
  let checkW3 ← readUint32 block.buf ((refAddr : Int) - 0xc) true
  let word ← readUint32 block.buf (refAddr : Int) true
  let widx : Int := jsSar word 0x10
  let id : Nat := word % 0x10000
  if checkW1 ≠ 0x55555555 ∨ checkW2 ≠ 0x55555555 ∨ checkW3 ≠ 0x55555555 ∨
      widx ≥ 0x800 then
    Except.ok (eep, none)
  else
    match eep id with
    | none => Except.ok (eep, none)
    | some entry =>
      -- JS `entry.length > BLOCK_SIZE` with `length = encLen / 4` (exact in
      -- floating point), i.e. `encLen > 4 * 0x800`.
      if entry.encLen > 0x2000 then Except.ok (eep, none)
      else do
        -- `Math.ceil(entry.length)` words, read backward from `widx`.
        let nWord := (entry.encLen + 3) / 4
        let newWords ← (List.range nWord).mapM
          (fun (j : Nat) => readUint32 block.buf (widx - (j : Int) * 4) true)
        let data := entry.data ++ newWords
        let dataBuf ← fillBuf entry.dataBuf data
        let entry :=
          { entry with
            data := data, dataBuf := dataBuf, widx := widx,
            widx_abs := widx + 0x800 * (block.id : Int), addr := refAbsAddr }
        Except.ok (updateB eep id entry, some entry)

/-- Probe loop of `Emu_RH850.findActiveRwp`: step the candidate rwp in
16-byte strides; every probed descriptor whose `widx` matches the expected
data write pointer confirms the candidate and moves the data pointer down
by the record's byte length.  `rwp` starts at `0x28` and grows by `0x10`
while below `dwp ≤ 0x7f8`, so at most 125 iterations happen and the fuel
`0x7e` is never exhausted.  Note the probes call `readDataEntry` and hence
mutate the record table. -/
def findActiveRwpLoop (page : DFBlock) :
    Nat → Nat → Nat → Int → MapB → Except String (MapB × Nat)
  | 0, _, _, _, _ => Except.error "loop fuel exhausted"
  | fuel + 1, rwp, rwp_hypo, dwp, eep =>
    if (rwp : Int) < dwp then do
      let (eep, de) ← readDataEntryB eep page (rwp - 4)
      match de with
      | some dataEntry =>
        if dataEntry.widx = dwp then
          findActiveRwpLoop page fuel (rwp + 0x10) rwp (dwp - (dataEntry.encLen : Int)) eep
        else findActiveRwpLoop page fuel (rwp + 0x10) rwp_hypo dwp eep
      | none => findActiveRwpLoop page fuel (rwp + 0x10) rwp_hypo dwp eep
    else Except.ok (eep, rwp_hypo)

/-- `Emu_RH850.findActiveRwp`. -/
def findActiveRwp (eep : MapB) (page : DFBlock) : Except String (MapB × Nat) :=
  findActiveRwpLoop page 0x7e 0x28 0x28 0x7f8 eep

/-- The descriptor-slot addresses visited by the backward walk of
`Emu_RH850.populateBlockData`: `rwp - 4`, `rwp - 0x14`, … while above
`0x20`. -/
def slotAddrsB (rwp : Nat) : List Nat :=
  let count := if 0x25 ≤ rwp then (rwp - 0x25) / 0x10 + 1 else 0
  (List.range count).map (fun k => rwp - 4 - 0x10 * k)

/-- One slot of the backward walk: read the entry (mutating the table on a
guard-valid slot), and keep the table as is when the slot is rejected or
the id's entry already holds data; the final assignment stores the same
aliased entry back. -/
def popSlotB (block : DFBlock) (eep : MapB) (refAddr : Nat) : Except String MapB := do
  let (eep, de) ← readDataEntryB eep block refAddr
  match de with
  | none => Except.ok eep
  | some dataEntry =>
    match eep dataEntry.id with
    | none => Except.error "TypeError: cannot read data of undefined"
    | some cur =>
      if cur.data.length ≠ 0 then Except.ok eep
      else Except.ok (updateB eep dataEntry.id dataEntry)

/-- `Emu_RH850.populateBlockData` for one active block: recover the rwp if
the block has none recorded (mutating both the table and the block), then
walk the descriptor slots backward from `rwp - 4`. -/
def popBlockB (active : List Nat) (st : List DFBlock × MapB) (blockId : Nat) :
    Except String (List DFBlock × MapB) := do
  let (blocks, eep) := st
  match active[blockId]? with
  | none => Except.error "TypeError: active block index out of range"
  | some blockNum =>
    match blocks[blockNum]? with
    | none => Except.error "TypeError: missing catalog entry"
    | some block => do
      let (eep, rwp) ← if block.rwp = 0 then findActiveRwp eep block
                       else Except.ok (eep, block.rwp)
      let block := { block with rwp := rwp }
      let blocks := blocks.set blockNum block
      let eep ← (slotAddrsB rwp).foldlM (popSlotB block) eep
      Except.ok (blocks, eep)

/-- Decoded state of a finished `Emu_RH850` constructor run. -/
structure StateB where
  table : RhTable
  blocks : List DFBlock
  active : List Nat
  eep : MapB

/-- The table-loading stage of the `Emu_RH850` constructor (runs before any
dataflash block is scanned). -/
def tableStage (cf : List Nat) (tableHeaderAddr : Nat) : Except String (RhTable × MapB) := do
  let tb ← getDataTable cf tableHeaderAddr
  let eep ← populateDataInfoWTable cf tb
  Except.ok (tb, eep)

/-- The `Emu_RH850` constructor: geometry check, table load, block catalog,
erase ordering, then the per-block backward walks. -/
def rh850Construct (df cf : List Nat) (tableHeaderAddr : Nat) : Except String StateB := do
  let nB ← necConstruct df.length 0x800
  let (tb, eep0) ← tableStage cf tableHeaderAddr
  let blocks ← getBlocksDataB df nB
  let active := getActiveBlocksOrderedList blocks
  let (blocks, eep) ← (List.range active.length).foldlM (popBlockB active) (blocks, eep0)
  Except.ok { table := tb, blocks := blocks, active := active, eep := eep }

/-- Final family-B record table lookup (none on a failed construction). -/
def rh850Eep (df cf : List Nat) (tableHeaderAddr id : Nat) : Option EepDataB :=
  match rh850Construct df cf tableHeaderAddr with
  | Except.ok st => st.eep id
  | Except.error _ => none

/-- The net effect of the word-by-word `dataBuf` fill: the serialization of
`data` truncated to the target length, with the target's old suffix beyond
it retained. -/
def writeData (target data : List Nat) : List Nat :=
  (serializeLE data).take target.length ++
    target.drop (min target.length (4 * data.length))

/-- Specification-side shape of a family-B `dataBuf`: an `size`-byte buffer
holding the truncated serialization of `data` followed by the remaining
alloc-time zeros. -/
def bFill (size : Nat) (data : List Nat) : List Nat :=
  (serializeLE data).take size ++ List.replicate (size - min size (4 * data.length)) 0

/-- The validity flag computed for window `i` of a family-A image (the
validity check never throws, see `isValidBlockA_total`). -/
def validA (df : List Nat) (i : Nat) : Bool :=
  match isValidBlockA (blockWindow df 0x1000 i) with
  | Except.ok v => v
  | Except.error _ => false

/-- The catalog entry built for window `i` of a family-A image before rwp
registration. -/
def mkObjA (df : List Nat) (i : Nat) : DFBlock :=
  { id := i, isValid := validA df i,
    eraseCount := wordAtLE (blockWindow df 0x1000 i) 0x28 % 2 ^ 24, rwp := 0,
    buf := blockWindow df 0x1000 i }

/-- The validity flag computed for window `i` of a family-B image. -/
def validB (df : List Nat) (i : Nat) : Bool :=
  match isValidBlockB (blockWindow df 0x800 i) with
  | Except.ok v => v
  | Except.error _ => false

/-- The catalog entry built for window `i` of a family-B image before rwp
registration. -/
def mkObjB (df : List Nat) (i : Nat) : DFBlock :=
  { id := i, isValid := validB df i,
    eraseCount := wordAtLE (blockWindow df 0x800 i) 0x10 % 2 ^ 24, rwp := 0,
    buf := blockWindow df 0x800 i }

/-- Projection of one catalog entry out of a catalog-builder result. -/
def blockAt (r : Except String (List DFBlock)) (i : Nat) : DFBlock :=
  match r with
  | Except.ok bs => bs.getD i default
  | Except.error _ => default

/-! ### Concrete images used as witnesses and counterexamples -/

/-- Byte generator of the family-A image `dfA1`. -/
def dfA1fn (i : Nat) : Nat :=
  if 0x10 ≤ i ∧ i < 0x14 then 0x55
  else if 0x18 ≤ i ∧ i < 0x1c then 0x55
  else if 0x20 ≤ i ∧ i < 0x24 then 0x55
  else if i = 0x2b then 1
  else 0

/-- Family-A one-block image: a valid block (guard words at `0x10`, `0x18`,
`0x20`) whose erase-counter field at `0x28`–`0x2b` is `0x01000000` (only
the top byte, at `0x2b`, is set). -/
def dfA1 : List Nat := (List.range 0x1000).map dfA1fn

/-- Byte generator of the family-A image `dfA2`. -/
def dfA2fn (i : Nat) : Nat :=
  if 0x10 ≤ i ∧ i < 0x14 then 0x55
  else if 0x18 ≤ i ∧ i < 0x1c then 0x55
  else if 0x20 ≤ i ∧ i < 0x24 then 0x55
  else if i = 0x40 then 0x05
  else if i = 0x42 then 0x30
  else if i = 0x48 then 0xf6
  else if 0x49 ≤ i ∧ i < 0x4c then 0xff
  else if 0x50 ≤ i ∧ i < 0x54 then 0xff
  else if i = 0x180 then 0x04
  else 0

/-- Family-A one-block image holding one self-consistent record: reference
slot at `0x40` (`widx = 0x30`, `id = 5`, checksum word `0xfffffff6` at
`0x48`), end marker at `0x50`, and the record's single data word `0x4`
(byte length 4) at `0x180 = widx * 8`. -/
def dfA2 : List Nat := (List.range 0x1000).map dfA2fn

/-- Byte generator of the family-B image `dfB1`. -/
def dfB1fn (i : Nat) : Nat :=
  if 0x4 ≤ i ∧ i < 0x10 then 0x55
  else if i = 0x13 then 0xff
  else if i = 0x14 then 0x64
  else if i = 0x17 then 0x9b
  else if 0x44 ≤ i ∧ i < 0x50 then 0x55
  else if i = 0x50 then 0x10
  else if i = 0x53 then 0x02
  else if 0x54 ≤ i ∧ i < 0x60 then 0x55
  else if i = 0x60 then 0x10
  else if i = 0x63 then 0x01
  else if i = 0x100 then 0xaa
  else if i = 0x200 then 0xbb
  else 0

/-- Family-B one-block image: a valid block (guards at `0x4`–`0xf`, both
field checksums `0xff`, recorded rwp `0x64`) holding two guard-valid
descriptor slots for the same id `0x10`: the newer one at `0x60`
(`widx = 0x100`, data word `0xaa`) and the older one at `0x50`
(`widx = 0x200`, data word `0xbb`). -/
def dfB1 : List Nat := (List.range 0x800).map dfB1fn

/-- Companion code flash for `dfB1`: table header at 0, ROM pointer `0x10`,
one table entry declaring id `0x10` with encoded length 4 bytes. -/
def cfB1 : List Nat :=
  [0x00, 0x08, 0x00, 0x00,
   0x10, 0x00, 0x00, 0x00,
   0x00, 0x00, 0x00, 0x00,
   0x01, 0x00, 0x00, 0x00,
   0x10, 0x00, 0x04, 0x00]

/-- Tiny absolute image for the family-A overlap witness: the record head
word at `0x10 = widx * 8` declares byte length 8 (two words). -/
def dfOv : List Nat :=
  [0, 0, 0, 0, 0, 0, 0, 0, 0, 0, 0, 0, 0, 0, 0, 0,
   0x08, 0, 0, 0, 0, 0, 0, 0]

/-- Successor-block catalog for the overlap witness: its last word (at
`len - 8`) is `0xcc`. -/
def blocksOv : List DFBlock :=
  [{ id := 0, isValid := true, eraseCount := 0, rwp := 0,
     buf := [0, 0, 0, 0, 0, 0, 0, 0, 0xcc, 0, 0, 0, 0, 0, 0, 0] }]

/-- Tiny absolute image for the family-A checksum witness: the single
record word at `0x8 = widx * 8` is `0x4` (byte length 4, one word). -/
def dfCks : List Nat :=
  [0, 0, 0, 0, 0, 0, 0, 0, 0x04, 0, 0, 0]

/-- Catalog entry produced for the single block of `dfA1`. -/
def blkA1 : DFBlock :=
  { id := 0, isValid := true, eraseCount := 0, rwp := 0, buf := dfA1 }

/-- Catalog entry produced for the single block of `dfA2`. -/
def blkA2 : DFBlock :=
  { id := 0, isValid := true, eraseCount := 0, rwp := 0, buf := dfA2 }

/-- The record that `dfA2` decodes for id `5`. -/
def entryA2 : EepDataA :=
  { id := 5, widx := 0x30, widx_abs := 0x30, length := 1, data := [0x4],
    dataBuf := [0x4, 0, 0, 0], addr := 0x40 }

/-- The full decoded state of `dfA2`. -/
def stA2 : StateA :=
  { blocks := [blkA2], active := [0], eep := updateA emptyMapA 5 entryA2 }

/-- The table header that `cfB1` decodes to. -/
def tbB1 : RhTable :=
  { blockSize := 0x800, prepBlocks_min := 0, pointer_rom := 0x10, pointer_ram := 0,
    entries := 1, eraseSuspend := 0 }

/-- The empty stub pre-populated for id `0x10` from the `cfB1` table. -/
def stubB1 : EepDataB :=
  { id := 0x10, widx := 0, widx_abs := 0, encLen := 4, data := [],
    dataBuf := List.replicate 16 0, addr := 0 }

/-- The record table right after the `cfB1` table stage. -/
def eepB1 : MapB := updateB emptyMapB 0x10 stubB1

/-- Catalog entry of the `dfB1` block before rwp registration. -/
def blkB10 : DFBlock :=
  { id := 0, isValid := true, eraseCount := 0, rwp := 0, buf := dfB1 }

/-- Catalog entry of the `dfB1` block after rwp registration. -/
def blkB1 : DFBlock :=
  { id := 0, isValid := true, eraseCount := 0, rwp := 0x64, buf := dfB1 }

/-- Entry state after the newest descriptor slot (`0x60`) of `dfB1` is
read: one payload word `0xaa`, write index `0x100`. -/
def entryB1a : EepDataB :=
  { id := 0x10, widx := 0x100, widx_abs := 0x100, encLen := 4, data := [0xaa],
    dataBuf := [0xaa, 0, 0, 0, 0, 0, 0, 0, 0, 0, 0, 0, 0, 0, 0, 0], addr := 0x60 }

/-- The record table after the newest slot of `dfB1`. -/
def eepB1a : MapB := updateB eepB1 0x10 entryB1a

/-- Entry state after the older duplicate slot (`0x50`) of `dfB1` has
mutated the shared entry again: the older payload word `0xbb` is appended
and `widx`/`widx_abs`/`addr` are overwritten with the older slot's. -/
def entryB1b : EepDataB :=
  { id := 0x10, widx := 0x200, widx_abs := 0x200, encLen := 4, data := [0xaa, 0xbb],
    dataBuf := [0xaa, 0, 0, 0, 0xbb, 0, 0, 0, 0, 0, 0, 0, 0, 0, 0, 0], addr := 0x50 }

/-- The final record table of the `dfB1`/`cfB1` run. -/
def eepB1f : MapB := updateB eepB1a 0x10 entryB1b

/-- The full decoded state of the `dfB1`/`cfB1` run. -/
def stB1 : StateB :=
  { table := tbB1, blocks := [blkB1], active := [0], eep := eepB1f }

/-- Shape invariant of a family-A record entry: the stored length counts
the words, every word is 32-bit, and the byte buffer is exactly the
little-endian serialization of the words. -/
def entryInvA (e : EepDataA) : Prop :=
  e.length = e.data.length ∧ (∀ w ∈ e.data, w < 2 ^ 32) ∧
    e.dataBuf = serializeLE e.data

/-- Every entry of a family-A record table satisfies `entryInvA`. -/
def mapInvA (m : MapA) : Prop := ∀ id e, m id = some e → entryInvA e

/-- Shape invariant of a family-B record entry: the byte buffer keeps its
allocation size of `4 * encLen` bytes (four times the encoded BYTE length,
sixteen times the word count), every word is 32-bit, and the buffer content
is the truncated-and-zero-padded serialization of the words. -/
def entryInvB (e : EepDataB) : Prop :=
  e.dataBuf.length = 4 * e.encLen ∧ (∀ w ∈ e.data, w < 2 ^ 32) ∧
    e.dataBuf = bFill (4 * e.encLen) e.data

/-- Every entry of a family-B record table satisfies `entryInvB`. -/
def mapInvB (m : MapB) : Prop := ∀ id e, m id = some e → entryInvB e

/-! ### Helper lemmas -/

@[simp] theorem ok_bind {ε α β : Type} (a : α) (f : α → Except ε β) :
    (Except.ok a >>= f) = f a := rfl

@[simp] theorem error_bind {ε α β : Type} (e : ε) (f : α → Except ε β) :
    (Except.error e >>= f : Except ε β) = Except.error e := rfl

theorem byteAt_lt (buf : List Nat) (i : Nat) : byteAt buf i < 256 :=
  Nat.mod_lt _ (by norm_num)

theorem wordValue_lt (word : List Nat) (e : Bool) : wordValue word e < 2 ^ 32 := by
  unfold wordValue; cases e <;> simp only [Bool.false_eq_true, if_true, if_false] <;> omega

/-- Every value produced by `readUint32` is a 32-bit word. -/
theorem readUint32_lt {buf : List Nat} {addr : Int} {e : Bool} {w : Nat}
    (h : readUint32 buf addr e = Except.ok w) : w < 2 ^ 32 := by
  unfold readUint32 at h
  split at h
  · exact absurd h (by simp)
  · simp only [Except.ok.injEq] at h
    exact h ▸ wordValue_lt _ _

/-- `wordAtLE` is a 32-bit word. -/
theorem wordAtLE_lt (buf : List Nat) (k : Nat) : wordAtLE buf k < 2 ^ 32 := by
  have h0 := byteAt_lt buf k; have h1 := byteAt_lt buf (k + 1)
  have h2 := byteAt_lt buf (k + 2); have h3 := byteAt_lt buf (k + 3)
  unfold wordAtLE; omega

theorem jsClamp_nonneg (len : Nat) (k : Nat) (h : k ≤ len) :
    jsClamp len (k : Int) = (k : Int) := by
  unfold jsClamp
  rw [if_neg (by omega)]
  omega

/-- A `subarray` with non-negative in-range endpoints is an ordinary slice. -/
theorem jsSubarray_nat (buf : List Nat) (k n : Nat) (h : k + n ≤ buf.length) :
    jsSubarray buf (k : Int) ((k : Int) + (n : Int)) = (buf.drop k).take n := by
  unfold jsSubarray
  have h1 : jsClamp buf.length (k : Int) = (k : Int) := jsClamp_nonneg _ _ (by omega)
  have h2 : jsClamp buf.length ((k : Int) + (n : Int)) = (k : Int) + (n : Int) := by
    have h' := jsClamp_nonneg buf.length (k + n) (by omega)
    push_cast at h'
    exact h'
  rw [h1, h2]
  have h3 : ((k : Int)).toNat = k := by omega
  have h4 : (((k : Int) + (n : Int)) - (k : Int)).toNat = n := by omega
  rw [h3, h4]

theorem getD_take_drop (buf : List Nat) (k n i : Nat) (hi : i < n) :
    ((buf.drop k).take n).getD i 0 = buf.getD (k + i) 0 := by
  simp only [List.getD_eq_getElem?_getD, List.getElem?_take_of_lt hi,
    List.getElem?_drop]

/-- In-range little-endian `readUint32` on an unpadded buffer reads the
32-bit word at the given byte offset. -/
theorem readUint32_ok (buf : List Nat) (k : Nat) (h : k + 4 ≤ buf.length) :
    readUint32 buf (k : Int) true = Except.ok (wordAtLE buf k) := by
  have hpad : padTo4 buf true = buf := by unfold padTo4; rw [if_neg]; omega
  unfold readUint32
  rw [hpad, if_neg (by omega)]
  have h4 : (k : Int) + 4 = (k : Int) + ((4 : Nat) : Int) := by norm_num
  rw [h4, jsSubarray_nat buf k 4 h]
  unfold wordValue wordAtLE byteAt
  rw [if_pos rfl]
  rw [getD_take_drop buf k 4 0 (by omega),
    getD_take_drop buf k 4 1 (by omega),
    getD_take_drop buf k 4 2 (by omega),
    getD_take_drop buf k 4 3 (by omega)]
  norm_num

/-- The three-byte exclusive-end slice read used for the erase counter and
rwp fields: `readUint32` zero-pads the missing top byte, so the result is
the 32-bit word at the offset reduced modulo `2^24`. -/
theorem readUint32_slice3 (buf : List Nat) (k : Nat) (h : k + 3 ≤ buf.length) :
    readUint32 (jsSubarray buf (k : Int) ((k : Int) + (3 : Nat))) 0 true =
      Except.ok (wordAtLE buf k % 2 ^ 24) := by
  rw [jsSubarray_nat buf k 3 h]
  have hlen : ((buf.drop k).take 3).length = 3 := by
    simp only [List.length_take, List.length_drop]; omega
  have hlen4 : ((buf.drop k).take 3 ++ [0]).length = 4 := by
    simp only [List.length_append, hlen]
    rfl
  have hpad : padTo4 ((buf.drop k).take 3) true = (buf.drop k).take 3 ++ [0] := by
    unfold padTo4
    rw [if_pos (by omega), if_pos rfl, hlen]
    rfl
  unfold readUint32
  rw [hpad, if_neg (by rw [hlen4]; norm_num)]
  have hsub : jsSubarray ((buf.drop k).take 3 ++ [0]) 0 (0 + 4) =
      (buf.drop k).take 3 ++ [0] := by
    unfold jsSubarray
    have hc0 : jsClamp ((buf.drop k).take 3 ++ [0]).length 0 = 0 := by
      unfold jsClamp; rw [if_neg (by omega)]; omega
    have hc4 : jsClamp ((buf.drop k).take 3 ++ [0]).length (0 + 4) = 4 := by
      unfold jsClamp; rw [if_neg (by omega), hlen4]; norm_num
    rw [hc0, hc4]
    have hd0 : (Int.toNat 0) = 0 := rfl
    have hd4 : ((4 : Int) - 0).toNat = 4 := by decide
    rw [hd0, hd4, List.drop_zero]
    exact List.take_of_length_le (by rw [hlen4])
  rw [hsub]
  unfold wordValue wordAtLE byteAt
  rw [if_pos rfl]
  have gapp : ∀ i, i < 3 →
      ((buf.drop k).take 3 ++ [0]).getD i 0 = ((buf.drop k).take 3).getD i 0 := by
    intro i hi
    rw [List.getD_eq_getElem?_getD, List.getElem?_append_left (by rw [hlen]; omega),
      ← List.getD_eq_getElem?_getD]
  have g0 : ((buf.drop k).take 3 ++ [0]).getD 0 0 = buf.getD (k + 0) 0 := by
    rw [gapp 0 (by omega), getD_take_drop buf k 3 0 (by omega)]
  have g1 : ((buf.drop k).take 3 ++ [0]).getD 1 0 = buf.getD (k + 1) 0 := by
    rw [gapp 1 (by omega), getD_take_drop buf k 3 1 (by omega)]
  have g2 : ((buf.drop k).take 3 ++ [0]).getD 2 0 = buf.getD (k + 2) 0 := by
    rw [gapp 2 (by omega), getD_take_drop buf k 3 2 (by omega)]
  have g3 : ((buf.drop k).take 3 ++ [0]).getD 3 0 = 0 := by
    rw [List.getD_eq_getElem?_getD, List.getElem?_append_right (by simp [hlen])]
    simp [hlen]
  rw [g0, g1, g2, g3]
  simp only [Except.ok.injEq, Nat.add_zero]
  omega

/-- A `subarray` covering a whole 4-byte buffer is the buffer itself. -/
theorem jsSubarray_word (l : List Nat) (h : l.length = 4) : jsSubarray l 0 (0 + 4) = l := by
  unfold jsSubarray
  have hc0 : jsClamp l.length 0 = 0 := by
    unfold jsClamp; rw [if_neg (by omega)]; omega
  have hc4 : jsClamp l.length (0 + 4) = 4 := by
    unfold jsClamp; rw [if_neg (by omega), h]; norm_num
  rw [hc0, hc4]
  have hd0 : (Int.toNat 0) = 0 := rfl
  have hd4 : ((4 : Int) - 0).toNat = 4 := by decide
  rw [hd0, hd4, List.drop_zero]
  exact List.take_of_length_le (by omega)

/-- Literal-address form of `readUint32_ok`. -/
theorem readUint32_okL (buf : List Nat) (a : Int) (k : Nat) (ha : a = (k : Int))
    (h : k + 4 ≤ buf.length) :
    readUint32 buf a true = Except.ok (wordAtLE buf k) := by
  subst ha; exact readUint32_ok buf k h

/-- Literal-address form of `readUint32_slice3`. -/
theorem readUint32_slice3L (buf : List Nat) (a b : Int) (k : Nat) (ha : a = (k : Int))
    (hb : b = (k : Int) + ((3 : Nat) : Int)) (h : k + 3 ≤ buf.length) :
    readUint32 (jsSubarray buf a b) 0 true = Except.ok (wordAtLE buf k % 2 ^ 24) := by
  subst ha; subst hb; exact readUint32_slice3 buf k h

theorem blockWindow_length (df : List Nat) (bs i : Nat) :
    (blockWindow df bs i).length = bs := by
  unfold blockWindow
  have h : ((df.drop (i * bs)).take bs).length ≤ bs := by
    simp only [List.length_take, List.length_drop]
    omega
  simp only [List.length_append, List.length_replicate]
  omega

/-- The window of a one-block image is the image itself. -/
theorem blockWindow_self (df : List Nat) (bs : Nat) (h : df.length = bs) :
    blockWindow df bs 0 = df := by
  simp only [blockWindow, Nat.zero_mul, List.drop_zero]
  rw [List.take_of_length_le (le_of_eq h), h, Nat.sub_self]
  rw [show (List.replicate 0 0 : List Nat) = [] from rfl]
  exact List.append_nil df

theorem length_map_range (f : Nat → Nat) (n : Nat) :
    ((List.range n).map f).length = n := by
  rw [List.length_map, List.length_range]

theorem getD_map_range (f : Nat → Nat) (n i : Nat) (h : i < n) :
    ((List.range n).map f).getD i 0 = f i := by
  rw [List.getD_eq_getElem?_getD, List.getElem?_map, List.getElem?_range h]
  rfl

theorem byteAt_map_range (f : Nat → Nat) (n i : Nat) (h : i < n) :
    byteAt ((List.range n).map f) i = f i % 256 := by
  unfold byteAt
  rw [getD_map_range f n i h]

/-- Shallow evaluation of a stored word of a generator-built image. -/
theorem wordAtLE_map_range (f : Nat → Nat) (n k : Nat) (h : k + 3 < n) :
    wordAtLE ((List.range n).map f) k =
      f k % 256 + 2 ^ 8 * (f (k + 1) % 256) + 2 ^ 16 * (f (k + 2) % 256) +
        2 ^ 24 * (f (k + 3) % 256) := by
  unfold wordAtLE
  rw [byteAt_map_range f n k (by omega), byteAt_map_range f n (k + 1) (by omega),
    byteAt_map_range f n (k + 2) (by omega), byteAt_map_range f n (k + 3) (by omega)]

/-- Shallow evaluation of a word read from a generator-built image. -/
theorem readUint32_map_range (f : Nat → Nat) (n : Nat) (a : Int) (k v : Nat)
    (ha : a = (k : Int)) (hk : k + 4 ≤ n)
    (hv : f k % 256 + 2 ^ 8 * (f (k + 1) % 256) + 2 ^ 16 * (f (k + 2) % 256) +
      2 ^ 24 * (f (k + 3) % 256) = v) :
    readUint32 ((List.range n).map f) a true = Except.ok v := by
  subst ha
  rw [readUint32_ok _ k (by rw [length_map_range]; omega),
    wordAtLE_map_range f n k (by omega), hv]

/-- Shallow evaluation of the 8-bit checksum of a generator-built image. -/
theorem checkSum8bit_map_range (f : Nat → Nat) (n start stop v : Nat)
    (hstop : stop < n)
    (hv : (((List.range (stop + 1 - start)).map (fun k => f (start + k) % 256)).sum) % 256
      = v) :
    checkSum8bit ((List.range n).map f) start stop = v := by
  unfold checkSum8bit
  rw [if_pos (by rw [length_map_range]; omega)]
  rw [List.map_congr_left (fun k hk =>
    byteAt_map_range f n (start + k) (by have := List.mem_range.mp hk; omega))]
  exact hv

theorem dfA1_length : dfA1.length = 0x1000 := length_map_range dfA1fn 0x1000

theorem dfA2_length : dfA2.length = 0x1000 := length_map_range dfA2fn 0x1000

theorem dfB1_length : dfB1.length = 0x800 := length_map_range dfB1fn 0x800

theorem dfA1_word (k v : Nat) (hk : k + 3 < 0x1000)
    (hv : dfA1fn k % 256 + 2 ^ 8 * (dfA1fn (k + 1) % 256) +
      2 ^ 16 * (dfA1fn (k + 2) % 256) + 2 ^ 24 * (dfA1fn (k + 3) % 256) = v) :
    wordAtLE dfA1 k = v := by
  show wordAtLE ((List.range 0x1000).map dfA1fn) k = v
  rw [wordAtLE_map_range dfA1fn 0x1000 k hk, hv]

theorem dfA2_word (k v : Nat) (hk : k + 3 < 0x1000)
    (hv : dfA2fn k % 256 + 2 ^ 8 * (dfA2fn (k + 1) % 256) +
      2 ^ 16 * (dfA2fn (k + 2) % 256) + 2 ^ 24 * (dfA2fn (k + 3) % 256) = v) :
    wordAtLE dfA2 k = v := by
  show wordAtLE ((List.range 0x1000).map dfA2fn) k = v
  rw [wordAtLE_map_range dfA2fn 0x1000 k hk, hv]

theorem dfB1_word (k v : Nat) (hk : k + 3 < 0x800)
    (hv : dfB1fn k % 256 + 2 ^ 8 * (dfB1fn (k + 1) % 256) +
      2 ^ 16 * (dfB1fn (k + 2) % 256) + 2 ^ 24 * (dfB1fn (k + 3) % 256) = v) :
    wordAtLE dfB1 k = v := by
  show wordAtLE ((List.range 0x800).map dfB1fn) k = v
  rw [wordAtLE_map_range dfB1fn 0x800 k hk, hv]

theorem dfA1_read (a : Int) (k v : Nat) (ha : a = (k : Int)) (hk : k + 4 ≤ 0x1000)
    (hv : dfA1fn k % 256 + 2 ^ 8 * (dfA1fn (k + 1) % 256) +
      2 ^ 16 * (dfA1fn (k + 2) % 256) + 2 ^ 24 * (dfA1fn (k + 3) % 256) = v) :
    readUint32 dfA1 a true = Except.ok v :=
  readUint32_map_range dfA1fn 0x1000 a k v ha hk hv

theorem dfA2_read (a : Int) (k v : Nat) (ha : a = (k : Int)) (hk : k + 4 ≤ 0x1000)
    (hv : dfA2fn k % 256 + 2 ^ 8 * (dfA2fn (k + 1) % 256) +
      2 ^ 16 * (dfA2fn (k + 2) % 256) + 2 ^ 24 * (dfA2fn (k + 3) % 256) = v) :
    readUint32 dfA2 a true = Except.ok v :=
  readUint32_map_range dfA2fn 0x1000 a k v ha hk hv

theorem dfB1_read (a : Int) (k v : Nat) (ha : a = (k : Int)) (hk : k + 4 ≤ 0x800)
    (hv : dfB1fn k % 256 + 2 ^ 8 * (dfB1fn (k + 1) % 256) +
      2 ^ 16 * (dfB1fn (k + 2) % 256) + 2 ^ 24 * (dfB1fn (k + 3) % 256) = v) :
    readUint32 dfB1 a true = Except.ok v :=
  readUint32_map_range dfB1fn 0x800 a k v ha hk hv

/-! ### C10 -/

/-- C10: round-trip of the primitive codec — for every integer `n` with
`0 ≤ n ≤ 0xFFFFFFFF` and either endianness flag `e`, reading back the
4-byte word produced by `int32ToWord n e` with `readUint32 · 0 e` yields
`n` again. -/
theorem c10_codec_roundtrip (n : Nat) (e : Bool) (h : n ≤ 0xffffffff) :
    (do
      let w ← int32ToWord (n : Int) e
      readUint32 w 0 e) = Except.ok n := by
  have hcond : ¬((n : Int) < -2147483648 ∨ (n : Int) > 0xffffffff) := by
    omega
  have hm : (((n : Int) % (2 ^ 32 : Int)).toNat) = n := by omega
  unfold int32ToWord
  rw [if_neg hcond]
  cases e with
  | true =>
    simp only [hm, ok_bind]
    rw [if_pos trivial]
    have hlen : ([n % 2 ^ 8, n / 2 ^ 8 % 2 ^ 8, n / 2 ^ 16 % 2 ^ 8, n / 2 ^ 24]).length = 4 :=
      rfl
    have hpad : padTo4 [n % 2 ^ 8, n / 2 ^ 8 % 2 ^ 8, n / 2 ^ 16 % 2 ^ 8, n / 2 ^ 24] true =
        [n % 2 ^ 8, n / 2 ^ 8 % 2 ^ 8, n / 2 ^ 16 % 2 ^ 8, n / 2 ^ 24] := by
      unfold padTo4; rw [if_neg (by omega)]
    unfold readUint32
    rw [hpad, if_neg (by rw [hlen]; norm_num), jsSubarray_word _ hlen]
    unfold wordValue
    rw [if_pos rfl]
    simp only [List.getD_cons_zero, List.getD_cons_succ, Except.ok.injEq]
    omega
  | false =>
    simp only [hm, ok_bind]
    rw [if_neg Bool.false_ne_true]
    simp only [List.reverse_cons, List.reverse_nil, List.nil_append, List.cons_append]
    have hlen : ([n / 2 ^ 24, n / 2 ^ 16 % 2 ^ 8, n / 2 ^ 8 % 2 ^ 8, n % 2 ^ 8]).length = 4 :=
      rfl
    have hpad : padTo4 [n / 2 ^ 24, n / 2 ^ 16 % 2 ^ 8, n / 2 ^ 8 % 2 ^ 8, n % 2 ^ 8] false =
        [n / 2 ^ 24, n / 2 ^ 16 % 2 ^ 8, n / 2 ^ 8 % 2 ^ 8, n % 2 ^ 8] := by
      unfold padTo4; rw [if_neg (by omega)]
    unfold readUint32
    rw [hpad, if_neg (by rw [hlen]; norm_num), jsSubarray_word _ hlen]
    unfold wordValue
    rw [if_neg (by simp)]
    simp only [List.getD_cons_zero, List.getD_cons_succ, Except.ok.injEq]
    omega

/-- Witness for C10 at `n = 0xDEADBEEF`, little endian. -/
theorem c10_codec_roundtrip_witness :
    (do
      let w ← int32ToWord ((0xdeadbeef : Nat) : Int) true
      readUint32 w 0 true) = Except.ok 0xdeadbeef :=
  c10_codec_roundtrip 0xdeadbeef true (by norm_num)

/-! ### C5 -/

/-- C5: for either family's configured block size, construction fails with
the geometry range error exactly when the image length is zero or not a
multiple of the block size, and otherwise partitions the image into
`length / blockSize` blocks. -/
theorem c5_geometry (len : Nat) :
    ((necConstruct len 0x1000).isOk = true ↔ ¬(len = 0 ∨ len % 0x1000 ≠ 0)) ∧
    (len ≠ 0 → len % 0x1000 = 0 → necConstruct len 0x1000 = Except.ok (len / 0x1000)) ∧
    ((necConstruct len 0x800).isOk = true ↔ ¬(len = 0 ∨ len % 0x800 ≠ 0)) ∧
    (len ≠ 0 → len % 0x800 = 0 → necConstruct len 0x800 = Except.ok (len / 0x800)) := by
  refine ⟨?_, ?_, ?_, ?_⟩ <;> unfold necConstruct
  · by_cases hc : len = 0 ∨ len % 0x1000 ≠ 0
    · rw [if_pos hc]; simp [Except.isOk, Except.toBool, hc]
    · rw [if_neg hc]; simp [Except.isOk, Except.toBool, hc]
  · intro h1 h2
    rw [if_neg (by omega)]
  · by_cases hc : len = 0 ∨ len % 0x800 ≠ 0
    · rw [if_pos hc]; simp [Except.isOk, Except.toBool, hc]
    · rw [if_neg hc]; simp [Except.isOk, Except.toBool, hc]
  · intro h1 h2
    rw [if_neg (by omega)]

/-- Witness for C5: a two-block family-A image and a rejected odd-sized
image. -/
theorem c5_geometry_witness :
    necConstruct 0x2000 0x1000 = Except.ok 2 ∧ (necConstruct 0x2001 0x1000).isOk = false := by
  constructor
  · have h := (c5_geometry 0x2000).2.1 (by norm_num) (by norm_num)
    simpa using h
  · have h := (c5_geometry 0x2001).1
    have h' : ¬((necConstruct 0x2001 0x1000).isOk = true) := by
      rw [h]; decide
    simpa using h'

/-! ### C6 -/

/-- C6: a block window is classified valid exactly when all required guard
words equal the active-flag constant `0x55555555` — at offsets `0x10`,
`0x18`, `0x20` for family A, and at offsets `0x04`, `0x08`, `0x0C` for
family B, which additionally requires the 8-bit additive checksums over
bytes `0x10`–`0x13` and `0x14`–`0x17` to each equal `0xFF`. -/
theorem c6_valid_block (bufA bufB : List Nat)
    (hA : bufA.length = 0x1000) (hB : bufB.length = 0x800) :
    (isValidBlockA bufA = Except.ok true ↔
      (wordAtLE bufA 0x10 = 0x55555555 ∧ wordAtLE bufA 0x18 = 0x55555555 ∧
        wordAtLE bufA 0x20 = 0x55555555)) ∧
    (isValidBlockB bufB = Except.ok true ↔
      (wordAtLE bufB 0x4 = 0x55555555 ∧ wordAtLE bufB 0x8 = 0x55555555 ∧
        wordAtLE bufB 0xc = 0x55555555 ∧ checkSum8bit bufB 0x10 0x13 = 0xff ∧
        checkSum8bit bufB 0x14 0x17 = 0xff)) := by
  constructor
  · unfold isValidBlockA
    rw [if_neg (by omega),
      readUint32_okL bufA 0x10 0x10 (by norm_num) (by omega),
      readUint32_okL bufA 0x18 0x18 (by norm_num) (by omega),
      readUint32_okL bufA 0x20 0x20 (by norm_num) (by omega)]
    simp only [ok_bind]
    by_cases h1 : wordAtLE bufA 0x10 = 0x55555555 <;>
      by_cases h2 : wordAtLE bufA 0x18 = 0x55555555 <;>
        by_cases h3 : wordAtLE bufA 0x20 = 0x55555555 <;>
          simp [h1, h2, h3]
  · unfold isValidBlockB
    rw [readUint32_okL bufB 0x4 0x4 (by norm_num) (by omega),
      readUint32_okL bufB 0x8 0x8 (by norm_num) (by omega),
      readUint32_okL bufB 0xc 0xc (by norm_num) (by omega)]
    simp only [ok_bind]
    by_cases h1 : wordAtLE bufB 0x4 = 0x55555555 <;>
      by_cases h2 : wordAtLE bufB 0x8 = 0x55555555 <;>
        by_cases h3 : wordAtLE bufB 0xc = 0x55555555 <;>
          simp [h1, h2, h3, and_assoc]

/-- Witness for C6 at the concrete images `dfA1` (one valid family-A
block) and `dfB1` (one valid family-B block). -/
theorem c6_valid_block_witness :
    (isValidBlockA dfA1 = Except.ok true ↔
      (wordAtLE dfA1 0x10 = 0x55555555 ∧ wordAtLE dfA1 0x18 = 0x55555555 ∧
        wordAtLE dfA1 0x20 = 0x55555555)) ∧
    (isValidBlockB dfB1 = Except.ok true ↔
      (wordAtLE dfB1 0x4 = 0x55555555 ∧ wordAtLE dfB1 0x8 = 0x55555555 ∧
        wordAtLE dfB1 0xc = 0x55555555 ∧ checkSum8bit dfB1 0x10 0x13 = 0xff ∧
        checkSum8bit dfB1 0x14 0x17 = 0xff)) :=
  c6_valid_block dfA1 dfB1 (by simp [dfA1]) (by simp [dfB1])

/-! ### C2 -/

theorem gather_mem_aux (l : List DFBlock) (acc : List Nat) (ec : Nat) :
    (ec ∈ l.foldl
      (fun ecs b => if b.isValid ∧ b.eraseCount ∉ ecs then ecs ++ [b.eraseCount] else ecs)
      acc) ↔
    ec ∈ acc ∨ ∃ b ∈ l, b.isValid = true ∧ b.eraseCount = ec := by
  induction l generalizing acc with
  | nil => simp
  | cons b l ih =>
    simp only [List.foldl_cons]
    rw [ih]
    by_cases hb : (b.isValid = true) ∧ b.eraseCount ∉ acc
    · rw [if_pos hb]
      simp only [List.mem_append, List.mem_singleton]
      constructor
      · rintro ((h | h) | h)
        · exact Or.inl h
        · exact Or.inr ⟨b, List.Mem.head _, hb.1, h.symm⟩
        · obtain ⟨b', hb', hv, he⟩ := h
          exact Or.inr ⟨b', List.Mem.tail _ hb', hv, he⟩
      · rintro (h | ⟨b', hb', hv, he⟩)
        · exact Or.inl (Or.inl h)
        · rcases List.mem_cons.mp hb' with rfl | hb''
          · exact Or.inl (Or.inr he.symm)
          · exact Or.inr ⟨b', hb'', hv, he⟩
    · rw [if_neg hb]
      push_neg at hb
      constructor
      · rintro (h | h)
        · exact Or.inl h
        · obtain ⟨b', hb', hv, he⟩ := h
          exact Or.inr ⟨b', List.Mem.tail _ hb', hv, he⟩
      · rintro (h | ⟨b', hb', hv, he⟩)
        · exact Or.inl h
        · rcases List.mem_cons.mp hb' with rfl | hb''
          · exact Or.inl (he ▸ hb hv)
          · exact Or.inr ⟨b', hb'', hv, he⟩

theorem mem_gatherEraseCounts (blocks : List DFBlock) (ec : Nat) :
    (ec ∈ gatherEraseCounts blocks) ↔
      ∃ b ∈ blocks, b.isValid = true ∧ b.eraseCount = ec := by
  unfold gatherEraseCounts
  rw [gather_mem_aux]
  simp

theorem gather_nodup_aux (l : List DFBlock) (acc : List Nat) (h : acc.Nodup) :
    (l.foldl
      (fun ecs b => if b.isValid ∧ b.eraseCount ∉ ecs then ecs ++ [b.eraseCount] else ecs)
      acc).Nodup := by
  induction l generalizing acc with
  | nil => simpa
  | cons b l ih =>
    simp only [List.foldl_cons]
    by_cases hb : (b.isValid = true) ∧ b.eraseCount ∉ acc
    · rw [if_pos hb]
      refine ih _ ?_
      simp [List.nodup_append, h, hb.2]
    · rw [if_neg hb]
      exact ih _ h

theorem gather_nodup (blocks : List DFBlock) : (gatherEraseCounts blocks).Nodup :=
  gather_nodup_aux _ [] (by simp)

theorem mem_groupOf (blocks : List DFBlock) (ec i : Nat) :
    (i ∈ groupOf blocks ec) ↔
      i < blocks.length ∧ (blocks.getD i default).isValid = true ∧
        (blocks.getD i default).eraseCount = ec := by
  unfold groupOf
  simp only [List.mem_filter, List.mem_range, decide_eq_true_eq]

theorem sortedGroup_pairwise (blocks : List DFBlock) (ec : Nat) :
    ((groupOf blocks ec).insertionSort (· ≤ ·)).Pairwise (· < ·) := by
  have hs : ((groupOf blocks ec).insertionSort (· ≤ ·)).Sorted (· ≤ ·) :=
    List.sorted_insertionSort _ _
  have hn : ((groupOf blocks ec).insertionSort (· ≤ ·)).Nodup :=
    (List.Nodup.filter _ (List.nodup_range _)).perm (List.perm_insertionSort _ _).symm
  exact (hs.and hn).imp (fun h => lt_of_le_of_ne h.1 h.2)

theorem sortedGather_pairwise (blocks : List DFBlock) :
    ((gatherEraseCounts blocks).insertionSort (· ≤ ·)).Pairwise (· < ·) := by
  have hs : ((gatherEraseCounts blocks).insertionSort (· ≤ ·)).Sorted (· ≤ ·) :=
    List.sorted_insertionSort _ _
  have hn : ((gatherEraseCounts blocks).insertionSort (· ≤ ·)).Nodup :=
    (gather_nodup blocks).perm (List.perm_insertionSort _ _).symm
  exact (hs.and hn).imp (fun h => lt_of_le_of_ne h.1 h.2)

/-- C2: the erase-order resolver returns exactly the valid block indices,
ordered primarily by ascending erase counter and secondarily by ascending
block index: a valid block with a smaller erase counter always precedes one
with a larger counter, and two valid blocks with equal counters appear
lower index first. -/
theorem c2_erase_order (blocks : List DFBlock) :
    (∀ i, (i ∈ getActiveBlocksOrderedList blocks) ↔
      (i < blocks.length ∧ (blocks.getD i default).isValid = true)) ∧
    (getActiveBlocksOrderedList blocks).Pairwise (fun i j =>
      (blocks.getD i default).eraseCount < (blocks.getD j default).eraseCount ∨
        ((blocks.getD i default).eraseCount = (blocks.getD j default).eraseCount ∧ i < j)) := by
  constructor
  · intro i
    unfold getActiveBlocksOrderedList
    rw [List.mem_flatMap]
    constructor
    · rintro ⟨ec, _, hi⟩
      rw [List.mem_insertionSort, mem_groupOf] at hi
      exact ⟨hi.1, hi.2.1⟩
    · rintro ⟨hlen, hval⟩
      refine ⟨(blocks.getD i default).eraseCount, ?_, ?_⟩
      · rw [List.mem_insertionSort, mem_gatherEraseCounts]
        refine ⟨blocks.getD i default, ?_, hval, rfl⟩
        rw [List.getD_eq_getElem blocks default hlen]
        exact List.getElem_mem hlen
      · rw [List.mem_insertionSort, mem_groupOf]
        exact ⟨hlen, hval, rfl⟩
  · unfold getActiveBlocksOrderedList
    rw [List.pairwise_flatMap]
    constructor
    · intro ec _
      refine List.Pairwise.imp_of_mem ?_ (sortedGroup_pairwise blocks ec)
      intro a b ha hb hlt
      rw [List.mem_insertionSort, mem_groupOf] at ha hb
      exact Or.inr ⟨ha.2.2.trans hb.2.2.symm, hlt⟩
    · refine (sortedGather_pairwise blocks).imp ?_
      intro e1 e2 hlt x hx y hy
      rw [List.mem_insertionSort, mem_groupOf] at hx hy
      exact Or.inl (hx.2.2.symm ▸ hy.2.2.symm ▸ hlt)

/-! ### C8 -/

theorem jsSar16_of_lt (w : Nat) (hw : w < 2 ^ 31) :
    jsSar w 0x10 = ((w / 2 ^ 16 : Nat) : Int) := by
  unfold jsSar toInt32
  rw [Int.fdiv_eq_ediv _ (by positivity)]
  have hm : w % 2 ^ 32 = w := Nat.mod_eq_of_lt (by omega)
  simp only [hm]
  rw [if_pos hw]
  omega

theorem jsSar16_of_ge (w : Nat) (hw1 : 2 ^ 31 ≤ w) (hw2 : w < 2 ^ 32) :
    jsSar w 0x10 = ((w / 2 ^ 16 : Nat) : Int) - 2 ^ 16 := by
  unfold jsSar toInt32
  rw [Int.fdiv_eq_ediv _ (by positivity)]
  have hm : w % 2 ^ 32 = w := Nat.mod_eq_of_lt hw2
  simp only [hm]
  rw [if_neg (by omega)]
  omega

theorem tableBuf_length (cf : List Nat) (rom entries : Nat) :
    (tableBuf cf rom entries).length = entries * 4 := by
  unfold tableBuf
  have h : ((cf.drop rom).take (entries * 4)).length ≤ entries * 4 := by
    simp only [List.length_take, List.length_drop]
    omega
  simp only [List.length_append, List.length_replicate]
  omega

/-- A table entry whose unsigned high half exceeds the block size makes the
table-population step fail (negative-alloc `RangeError` when the signed
half is negative, the explicit table check otherwise). -/
theorem popTableStep_err (cf : List Nat) (tb : RhTable) (i : Nat) (eep : MapB)
    (hi : i < tb.entries)
    (hbad : 0x800 < wordAtLE (tableBuf cf tb.pointer_rom tb.entries) (4 * i) / 2 ^ 16) :
    ∃ e, popTableStep cf tb eep i = Except.error e := by
  unfold popTableStep
  rw [readUint32_okL _ _ (4 * i) (by push_cast; ring)
    (by rw [tableBuf_length]; omega)]
  simp only [ok_bind]
  have hw32 := wordAtLE_lt (tableBuf cf tb.pointer_rom tb.entries) (4 * i)
  by_cases hlt : wordAtLE (tableBuf cf tb.pointer_rom tb.entries) (4 * i) < 2 ^ 31
  · rw [jsSar16_of_lt _ hlt, if_neg (by omega)]
    rw [if_pos (by simp only [Int.toNat_natCast]; omega)]
    exact ⟨_, rfl⟩
  · rw [jsSar16_of_ge _ (by omega) hw32, if_pos (by omega)]
    exact ⟨_, rfl⟩

/-- A table entry whose unsigned high half is within the block size
succeeds. -/
theorem popTableStep_ok (cf : List Nat) (tb : RhTable) (i : Nat) (eep : MapB)
    (hi : i < tb.entries)
    (hgood : wordAtLE (tableBuf cf tb.pointer_rom tb.entries) (4 * i) / 2 ^ 16 ≤ 0x800) :
    ∃ st, popTableStep cf tb eep i = Except.ok st := by
  unfold popTableStep
  rw [readUint32_okL _ _ (4 * i) (by push_cast; ring)
    (by rw [tableBuf_length]; omega)]
  simp only [ok_bind]
  have hlt : wordAtLE (tableBuf cf tb.pointer_rom tb.entries) (4 * i) < 2 ^ 31 := by omega
  rw [jsSar16_of_lt _ hlt, if_neg (by omega)]
  rw [if_neg (by simp only [Int.toNat_natCast]; omega)]
  exact ⟨_, rfl⟩

theorem popTable_fold_err (cf : List Nat) (tb : RhTable) (l : List Nat) (init : MapB)
    (hl : ∀ j ∈ l, j < tb.entries)
    (hbad : ∃ j ∈ l,
      0x800 < wordAtLE (tableBuf cf tb.pointer_rom tb.entries) (4 * j) / 2 ^ 16) :
    ∃ e, l.foldlM (popTableStep cf tb) init = Except.error e := by
  induction l generalizing init with
  | nil => simp at hbad
  | cons x xs ih =>
    obtain ⟨j, hj, hjbad⟩ := hbad
    simp only [List.foldlM_cons]
    by_cases hx : 0x800 < wordAtLE (tableBuf cf tb.pointer_rom tb.entries) (4 * x) / 2 ^ 16
    · obtain ⟨e, he⟩ := popTableStep_err cf tb x init (hl x (List.Mem.head _)) hx
      rw [he]
      exact ⟨e, by simp⟩
    · obtain ⟨st, hst⟩ := popTableStep_ok cf tb x init (hl x (List.Mem.head _)) (by omega)
      rw [hst]
      simp only [ok_bind]
      rcases List.mem_cons.mp hj with rfl | hj'
      · exact absurd hjbad hx
      · exact ih st (fun j' hj'' => hl j' (List.Mem.tail _ hj'')) ⟨j, hj', hjbad⟩

/-- C8: family-B construction fails fatally, before any dataflash block is
scanned, whenever the table header does not fit the code image or any
external table entry's encoded length exceeds the block size: the whole
constructor returns the table-stage error, uniformly in the dataflash
image. -/
theorem c8_table_fatal (cf : List Nat) (th : Nat) :
    (cf.length < th + 0x10 ∨
      ∃ tb, getDataTable cf th = Except.ok tb ∧
        ∃ i < tb.entries,
          0x800 < wordAtLE (tableBuf cf tb.pointer_rom tb.entries) (4 * i) / 2 ^ 16) →
    ∃ e, tableStage cf th = Except.error e ∧
      ∀ df : List Nat, df.length ≠ 0 → df.length % 0x800 = 0 →
        rh850Construct df cf th = Except.error e := by
  intro h
  have hts : ∃ e, tableStage cf th = Except.error e := by
    rcases h with h | ⟨tb, htb, hbad⟩
    · refine ⟨"RangeError: invalid table header address", ?_⟩
      unfold tableStage getDataTable
      rw [if_pos h]
      rfl
    · obtain ⟨i, hi, hibad⟩ := hbad
      obtain ⟨e, he⟩ := popTable_fold_err cf tb (List.range tb.entries) emptyMapB
        (fun j hj => List.mem_range.mp hj) ⟨i, List.mem_range.mpr hi, hibad⟩
      refine ⟨e, ?_⟩
      unfold tableStage populateDataInfoWTable
      rw [htb]
      simp only [ok_bind]
      rw [he]
      rfl
  obtain ⟨e, he⟩ := hts
  refine ⟨e, he, ?_⟩
  intro df h0 hm
  unfold rh850Construct
  have hnec : necConstruct df.length 0x800 = Except.ok (df.length / 0x800) := by
    unfold necConstruct
    rw [if_neg (by omega)]
  rw [hnec]
  simp only [ok_bind]
  rw [he]
  rfl

/-- Witness for C8: an empty code image (header cannot fit) makes the table
stage fail fatally for every well-sized dataflash image. -/
theorem c8_table_fatal_witness :
    (tableStage ([] : List Nat) 0).isOk = false := by
  obtain ⟨e, he, -⟩ := c8_table_fatal ([] : List Nat) 0 (Or.inl (by simp))
  rw [he]
  rfl

/-! ### C3 and C4: family-A record resolution -/

/-- A reference slot whose resolution throws is skipped: the walk body
returns the unchanged result table. -/
theorem popBodyA_error (df : List Nat) (blocks : List DFBlock)
    (blockNum blockId rwp : Nat) (nb : Option Nat) (blockBuf : List Nat) (st : MapA)
    (i word cks' : Nat) (e : String)
    (hcks : readUint32 blockBuf ((i : Int) * 0x10 + 0x8) true = Except.ok cks')
    (he : readDataEntryA df blocks (jsSar word 0x10) (word % 0x10000) cks' rwp nb =
      Except.error e) :
    popBodyA df blocks blockNum blockId rwp nb blockBuf st i word = Except.ok st := by
  unfold popBodyA
  rw [hcks]
  simp only [ok_bind]
  rw [he]
  simp

/-- Backward-accumulation walk that hits the block's rwp after exactly `k`
in-block words: the loop ends in the overlap branch (concatenation with the
successor-block suffix) or, with no successor, in the missing-next-block
error. -/
theorem accumLoopA_reach (df : List Nat) (blocks : List DFBlock) (widx : Int)
    (fixL rwp k : Nat) (nb : Option Nat)
    (hk : k < fixL)
    (hrwp : (widx - (k : Int)) * 8 = (rwp : Int))
    (hbefore : ∀ j, j < k → (widx - (j : Int)) * 8 ≠ (rwp : Int))
    (ws : List Nat) (hlen : ws.length = k)
    (hreads : ∀ j, j < k →
      readUint32 df ((widx - (j : Int)) * 8) true = Except.ok (ws.getD j 0)) :
    ∀ (m ofs fuel : Nat) (data : List Nat), m = k - ofs → ofs ≤ k →
      data.length = ofs → fixL + 1 - ofs ≤ fuel →
      accumLoopA df blocks widx fixL rwp nb fuel data ofs =
        (match nb with
         | some n =>
           (match blocks[n]? with
            | some bl =>
              (getOverlapData bl.buf fixL k).map (fun fin => (data ++ ws.drop ofs) ++ fin)
            | none => Except.error "TypeError: missing catalog entry for next block")
         | none => Except.error "RangeError: missing next block, invalid data") := by
  intro m
  induction m with
  | zero =>
    intro ofs fuel data hm hofs hdata hfuel
    have hofk : ofs = k := by omega
    subst hofk
    cases fuel with
    | zero => omega
    | succ f =>
      simp only [accumLoopA]
      rw [if_pos hrwp]
      rw [List.drop_of_length_le (by omega), List.append_nil, hdata]
      cases nb with
      | none => rfl
      | some n =>
        cases hbl : blocks[n]? with
        | none => simp [hbl]
        | some bl =>
          simp only [hbl]
          cases hov : getOverlapData bl.buf fixL ofs with
          | error e => simp [hov, Except.map]
          | ok fin => simp [hov, Except.map]
  | succ m ih =>
    intro ofs fuel data hm hofs hdata hfuel
    have hofs' : ofs < k := by omega
    cases fuel with
    | zero => omega
    | succ f =>
      simp only [accumLoopA]
      rw [if_neg (hbefore ofs hofs'), hreads ofs hofs']
      simp only [ok_bind]
      rw [if_pos (by simp only [List.length_append, hdata, List.length_singleton]; omega)]
      rw [ih (ofs + 1) f (data ++ [ws.getD ofs 0]) (by omega) (by omega)
        (by simp only [List.length_append, hdata, List.length_singleton]) (by omega)]
      have hd : (data ++ [ws.getD ofs 0]) ++ ws.drop (ofs + 1) = data ++ ws.drop ofs := by
        rw [List.append_assoc]
        congr 1
        rw [List.getD_eq_getElem ws 0 (by omega),
          List.drop_eq_getElem_cons (show ofs < ws.length by omega)]
        rfl
      rw [hd]

/-- The accumulation phase under the same rwp-hit hypotheses. -/
theorem accumPhaseA_reach (df : List Nat) (blocks : List DFBlock) (widx : Int)
    (rwp k firstWord fixL : Nat) (nb : Option Nat) (ws : List Nat)
    (hw : readUint32 df (widx * 8) true = Except.ok firstWord)
    (hfix : fixL = (firstWord % 0x10000 + 3) / 4)
    (hk : k < fixL)
    (hrwp : (widx - (k : Int)) * 8 = (rwp : Int))
    (hbefore : ∀ j, j < k → (widx - (j : Int)) * 8 ≠ (rwp : Int))
    (hlen : ws.length = k)
    (hreads : ∀ j, j < k →
      readUint32 df ((widx - (j : Int)) * 8) true = Except.ok (ws.getD j 0)) :
    accumPhaseA df blocks widx rwp nb =
      (match nb with
       | some n =>
         (match blocks[n]? with
          | some bl => (getOverlapData bl.buf fixL k).map (fun fin => ws ++ fin)
          | none => Except.error "TypeError: missing catalog entry for next block")
       | none => Except.error "RangeError: missing next block, invalid data") := by
  unfold accumPhaseA
  rw [hw]
  simp only [ok_bind]
  subst hfix
  have h := accumLoopA_reach df blocks widx _ rwp k nb hk hrwp hbefore ws hlen hreads
    k 0 (((firstWord % 0x10000 + 3) / 4) + 1) [] (by omega) (by omega) rfl (by omega)
  rw [h]
  simp

/-- C3: family-A checksum handling — a successfully resolved record's
words satisfy `rollingCks id words = cksRef` (start from `0xFFFFFFFF - id`,
subtract every accumulated word with unsigned 32-bit wraparound); a
mismatch makes `readDataEntry` fail with the checksum error for that
record only; and a failed slot leaves the result table untouched, so the
walk continues over sibling slots with the same state and the id is simply
not added by that slot. -/
theorem c3_checksum (df : List Nat) (blocks : List DFBlock) (widx : Int)
    (id cksRef rwp : Nat) (nb : Option Nat) (blockNum blockId : Nat)
    (blockBuf : List Nat) (st : MapA) (i word : Nat) :
    (∀ ws, readDataEntryA df blocks widx id cksRef rwp nb = Except.ok ws →
      rollingCks id ws = cksRef) ∧
    (∀ ws, accumPhaseA df blocks widx rwp nb = Except.ok ws →
      rollingCks id ws ≠ cksRef →
      readDataEntryA df blocks widx id cksRef rwp nb =
        Except.error "Error: invalid checksum for id") ∧
    (∀ cks' e, readUint32 blockBuf ((i : Int) * 0x10 + 0x8) true = Except.ok cks' →
      readDataEntryA df blocks (jsSar word 0x10) (word % 0x10000) cks' rwp nb =
        Except.error e →
      popBodyA df blocks blockNum blockId rwp nb blockBuf st i word = Except.ok st ∧
      ∀ id', st id' = none →
        ∀ m, popBodyA df blocks blockNum blockId rwp nb blockBuf st i word = Except.ok m →
          m id' = none) := by
  refine ⟨?_, ?_, ?_⟩
  · intro ws h
    unfold readDataEntryA at h
    cases ha : accumPhaseA df blocks widx rwp nb with
    | error e => rw [ha] at h; exact absurd h (by simp)
    | ok data =>
      rw [ha] at h
      simp only [ok_bind] at h
      by_cases hc : rollingCks id data ≠ cksRef
      · rw [if_pos hc] at h
        exact absurd h (by simp)
      · rw [if_neg hc] at h
        simp only [Except.ok.injEq] at h
        subst h
        omega
  · intro ws ha hne
    unfold readDataEntryA
    rw [ha]
    simp only [ok_bind]
    rw [if_pos hne]
  · intro cks' e hcks he
    have hbody := popBodyA_error df blocks blockNum blockId rwp nb blockBuf st i word
      cks' e hcks he
    refine ⟨hbody, ?_⟩
    intro id' hid' m hm
    rw [hbody] at hm
    simp only [Except.ok.injEq] at hm
    subst hm
    exact hid'

/-- C4: family-A cross-block overlap — a record whose backward walk hits
the block's rwp after `k` of its `fixL` words is completed from the end of
the successor block (`data = in-block words ++ overlap words`) when a
successor exists; with no successor the resolution fails with the
missing-next-block error, no exception escapes the walk (the slot body
returns the table unchanged), and the id is not added by that slot. -/
theorem c4_overlap (df : List Nat) (blocks : List DFBlock) (widx : Int)
    (id cksRef rwp k firstWord fixL : Nat) (nb : Option Nat) (ws : List Nat)
    (hw : readUint32 df (widx * 8) true = Except.ok firstWord)
    (hfix : fixL = (firstWord % 0x10000 + 3) / 4)
    (hk : k < fixL)
    (hrwp : (widx - (k : Int)) * 8 = (rwp : Int))
    (hbefore : ∀ j, j < k → (widx - (j : Int)) * 8 ≠ (rwp : Int))
    (hlen : ws.length = k)
    (hreads : ∀ j, j < k →
      readUint32 df ((widx - (j : Int)) * 8) true = Except.ok (ws.getD j 0)) :
    (∀ n bl, nb = some n → blocks[n]? = some bl →
      accumPhaseA df blocks widx rwp nb =
        (getOverlapData bl.buf fixL k).map (fun fin => ws ++ fin)) ∧
    (nb = none →
      readDataEntryA df blocks widx id cksRef rwp nb =
        Except.error "RangeError: missing next block, invalid data" ∧
      ∀ (st : MapA) (blockNum blockId i word cks' : Nat) (blockBuf : List Nat),
        readUint32 blockBuf ((i : Int) * 0x10 + 0x8) true = Except.ok cks' →
        jsSar word 0x10 = widx → word % 0x10000 = id →
        (popBodyA df blocks blockNum blockId rwp nb blockBuf st i word = Except.ok st ∧
          (st id = none →
            ∀ m, popBodyA df blocks blockNum blockId rwp nb blockBuf st i word =
              Except.ok m → m id = none))) := by
  have hphase := accumPhaseA_reach df blocks widx rwp k firstWord fixL nb ws hw hfix hk
    hrwp hbefore hlen hreads
  constructor
  · intro n bl hn hbl
    subst hn
    have h2 : accumPhaseA df blocks widx rwp (some n) =
        (match blocks[n]? with
         | some bl => (getOverlapData bl.buf fixL k).map (fun fin => ws ++ fin)
         | none => Except.error "TypeError: missing catalog entry for next block") :=
      hphase
    rw [h2, hbl]
  · intro hn
    subst hn
    have herr : readDataEntryA df blocks widx id cksRef rwp none =
        Except.error "RangeError: missing next block, invalid data" := by
      unfold readDataEntryA
      rw [hphase]
      rfl
    refine ⟨herr, ?_⟩
    intro st blockNum blockId i word cks' blockBuf hcks hwidx hid
    have herr' : readDataEntryA df blocks (jsSar word 0x10) (word % 0x10000) cks' rwp
        none = Except.error "RangeError: missing next block, invalid data" := by
      rw [hwidx, hid]
      unfold readDataEntryA
      rw [hphase]
      rfl
    have hbody := popBodyA_error df blocks blockNum blockId rwp none blockBuf st i word
      cks' _ hcks herr'
    refine ⟨hbody, ?_⟩
    intro hid' m hm
    rw [hbody] at hm
    simp only [Except.ok.injEq] at hm
    subst hm
    exact hid'

/-- Witness for C3 on the tiny image `dfCks` (one record, `id = 1`, single
word `0x4`, matching checksum `0xFFFFFFFA`): a matching slot resolves and
its rolling checksum equals the slot word, a zeroed checksum word makes the
same slot fail, and the failing slot leaves the table unchanged. -/
theorem c3_checksum_witness :
    rollingCks 1 [4] = 0xfffffffa ∧
    readDataEntryA dfCks [] 1 1 0 0 none = Except.error "Error: invalid checksum for id" ∧
    popBodyA dfCks [] 0 0 0 none (List.replicate 0x20 0) emptyMapA 1 0x00010001 =
      Except.ok emptyMapA := by
  refine ⟨?_, ?_, ?_⟩
  · exact (c3_checksum dfCks [] 1 1 0xfffffffa 0 none 0 0 [] emptyMapA 0 0).1 [4]
      (by decide)
  · exact (c3_checksum dfCks [] 1 1 0 0 none 0 0 [] emptyMapA 0 0).2.1 [4]
      (by decide) (by decide)
  · exact ((c3_checksum dfCks [] 0 0 0 0 none 0 0 (List.replicate 0x20 0) emptyMapA 1
      0x00010001).2.2 0 "Error: invalid checksum for id" (by decide) (by decide)).1

/-- Witness for C4 on the tiny images `dfOv`/`blocksOv` (record of 2 words,
rwp hit after 1 word): with the successor present the accumulation is the
in-block word `0x8` followed by the successor-end overlap; with no
successor the resolution fails with the missing-next-block error. -/
theorem c4_overlap_witness :
    (accumPhaseA dfOv blocksOv 2 8 (some 0) =
      (getOverlapData [0, 0, 0, 0, 0, 0, 0, 0, 0xcc, 0, 0, 0, 0, 0, 0, 0] 2 1).map
        (fun fin => [8] ++ fin)) ∧
    readDataEntryA dfOv [] 2 0 0 8 none =
      Except.error "RangeError: missing next block, invalid data" := by
  constructor
  · exact (c4_overlap dfOv blocksOv 2 0 0 8 1 8 2 (some 0) [8] (by decide) (by decide)
      (by decide) (by decide)
      (fun j hj => by
        have hj0 : j = 0 := Nat.lt_one_iff.mp hj
        subst hj0
        decide) rfl
      (fun j hj => by
        have hj0 : j = 0 := Nat.lt_one_iff.mp hj
        subst hj0
        decide)).1 0
      ⟨0, true, 0, 0, [0, 0, 0, 0, 0, 0, 0, 0, 0xcc, 0, 0, 0, 0, 0, 0, 0]⟩ rfl (by decide)
  · exact ((c4_overlap dfOv [] 2 0 0 8 1 8 2 none [8] (by decide) (by decide)
      (by decide) (by decide)
      (fun j hj => by
        have hj0 : j = 0 := Nat.lt_one_iff.mp hj
        subst hj0
        decide) rfl
      (fun j hj => by
        have hj0 : j = 0 := Nat.lt_one_iff.mp hj
        subst hj0
        decide)).2 rfl).1

/-! ### C7: erase counter and rwp extraction -/

/-- The family-A validity check never throws (the length guard
short-circuits every read that could go out of bounds). -/
theorem isValidBlockA_total (buf : List Nat) :
    ∃ v, isValidBlockA buf = Except.ok v := by
  unfold isValidBlockA
  by_cases hl : buf.length = 0x1000
  · rw [if_neg (by omega), readUint32_okL buf 0x10 0x10 (by norm_num) (by omega)]
    simp only [ok_bind]
    by_cases h1 : wordAtLE buf 0x10 ≠ 0x55555555
    · rw [if_pos h1]; exact ⟨false, rfl⟩
    · rw [if_neg h1, readUint32_okL buf 0x18 0x18 (by norm_num) (by omega)]
      simp only [ok_bind]
      by_cases h2 : wordAtLE buf 0x18 ≠ 0x55555555
      · rw [if_pos h2]; exact ⟨false, rfl⟩
      · rw [if_neg h2, readUint32_okL buf 0x20 0x20 (by norm_num) (by omega)]
        simp only [ok_bind]
        exact ⟨_, rfl⟩
  · rw [if_pos hl]; exact ⟨false, rfl⟩

/-- The family-B validity check never throws on a window-sized buffer. -/
theorem isValidBlockB_total (buf : List Nat) (hlen : 0x10 ≤ buf.length) :
    ∃ v, isValidBlockB buf = Except.ok v := by
  unfold isValidBlockB
  rw [readUint32_okL buf 0x4 0x4 (by norm_num) (by omega)]
  simp only [ok_bind]
  by_cases h1 : wordAtLE buf 0x4 ≠ 0x55555555
  · rw [if_pos h1]; exact ⟨false, rfl⟩
  · rw [if_neg h1, readUint32_okL buf 0x8 0x8 (by norm_num) (by omega)]
    simp only [ok_bind]
    by_cases h2 : wordAtLE buf 0x8 ≠ 0x55555555
    · rw [if_pos h2]; exact ⟨false, rfl⟩
    · rw [if_neg h2, readUint32_okL buf 0xc 0xc (by norm_num) (by omega)]
      simp only [ok_bind]
      by_cases h3 : wordAtLE buf 0xc ≠ 0x55555555
      · rw [if_pos h3]; exact ⟨false, rfl⟩
      · rw [if_neg h3]; exact ⟨_, rfl⟩

theorem mkBlockA_eq (df : List Nat) (i : Nat) :
    mkBlockA df i = Except.ok (mkObjA df i) := by
  simp only [mkBlockA]
  obtain ⟨v, hv⟩ := isValidBlockA_total (blockWindow df 0x1000 i)
  rw [hv]
  simp only [ok_bind]
  rw [readUint32_slice3L _ 0x28 0x2b 0x28 (by norm_num) (by norm_num)
    (by rw [blockWindow_length]; norm_num)]
  simp only [ok_bind]
  unfold mkObjA validA
  rw [hv]

theorem mkBlockB_eq (df : List Nat) (i : Nat) :
    mkBlockB df i = Except.ok (mkObjB df i) := by
  simp only [mkBlockB]
  obtain ⟨v, hv⟩ := isValidBlockB_total (blockWindow df 0x800 i)
    (by rw [blockWindow_length]; norm_num)
  rw [hv]
  simp only [ok_bind]
  rw [readUint32_slice3L _ 0x10 0x13 0x10 (by norm_num) (by norm_num)
    (by rw [blockWindow_length]; norm_num)]
  simp only [ok_bind]
  unfold mkObjB validB
  rw [hv]

theorem mapM_ok_of_total {α β : Type} (f : α → Except String β) (g : α → β) :
    ∀ l : List α, (∀ a ∈ l, f a = Except.ok (g a)) →
      l.mapM f = Except.ok (l.map g) := by
  intro l
  induction l with
  | nil =>
    intro _
    simp only [List.mapM_nil, List.map_nil]
    rfl
  | cons a l ih =>
    intro h
    simp only [List.mapM_cons, List.map_cons]
    rw [h a (List.Mem.head _)]
    simp only [ok_bind]
    rw [ih (fun x hx => h x (List.Mem.tail _ hx))]
    rfl

/-- Invariant preservation through the rwp registration pass: fields other
than `rwp` are untouched, and every non-zero registered rwp is one of the
gathered values, stored at the index it addresses. -/
theorem assignRwps_inv (blockSize : Nat) (Q : Nat → Prop) (R : Nat → DFBlock → Prop)
    (hR : ∀ i b v, R i b → R i { b with rwp := v }) :
    ∀ (rwps : List Nat) (bs bs' : List DFBlock),
      assignRwps blockSize bs rwps = Except.ok bs' →
      (∀ v ∈ rwps, Q v) →
      (∀ i (h : i < bs.length), R i bs[i] ∧
        (bs[i].rwp = 0 ∨ (bs[i].rwp / blockSize = i ∧ Q bs[i].rwp))) →
      bs'.length = bs.length ∧
      (∀ i (h : i < bs'.length), R i bs'[i] ∧
        (bs'[i].rwp = 0 ∨ (bs'[i].rwp / blockSize = i ∧ Q bs'[i].rwp))) := by
  intro rwps
  induction rwps with
  | nil =>
    intro bs bs' hass hQ hinv
    unfold assignRwps at hass
    simp only [List.foldlM_nil] at hass
    cases hass
    exact ⟨rfl, hinv⟩
  | cons v vs ih =>
    intro bs bs' hass hQ hinv
    unfold assignRwps at hass
    simp only [List.foldlM_cons] at hass
    cases hk : bs[v / blockSize]? with
    | none =>
      rw [hk] at hass
      exact absurd hass (by simp)
    | some b =>
      rw [hk] at hass
      simp only [ok_bind] at hass
      have hass' : assignRwps blockSize (bs.set (v / blockSize) { b with rwp := v }) vs =
          Except.ok bs' := hass
      obtain ⟨hklt, hkb⟩ := List.getElem?_eq_some_iff.mp hk
      have hnewinv : ∀ i (h : i < (bs.set (v / blockSize) { b with rwp := v }).length),
          R i (bs.set (v / blockSize) { b with rwp := v })[i] ∧
          ((bs.set (v / blockSize) { b with rwp := v })[i].rwp = 0 ∨
            ((bs.set (v / blockSize) { b with rwp := v })[i].rwp / blockSize = i ∧
              Q (bs.set (v / blockSize) { b with rwp := v })[i].rwp)) := by
        intro i h
        rw [List.length_set] at h
        by_cases hik : v / blockSize = i
        · subst hik
          rw [List.getElem_set_self]
          refine ⟨hR _ _ _ (hkb ▸ (hinv _ hklt).1), Or.inr ⟨rfl, hQ v (List.Mem.head _)⟩⟩
        · rw [List.getElem_set_ne hik]
          exact hinv i h
      have := ih _ bs' hass' (fun u hu => hQ u (List.Mem.tail _ hu)) hnewinv
      rw [List.length_set] at this
      exact this

theorem getBlocksDataA_inv (df : List Nat) (nA : Nat) (bs : List DFBlock)
    (hA : getBlocksDataA df nA = Except.ok bs) :
    bs.length = nA ∧
    ∀ i (h : i < bs.length),
      bs[i].id = i ∧ bs[i].buf = blockWindow df 0x1000 i ∧
      bs[i].eraseCount = wordAtLE (blockWindow df 0x1000 i) 0x28 % 2 ^ 24 ∧
      (bs[i].rwp = 0 ∨ (bs[i].rwp / 0x1000 = i ∧
        ∃ j < nA, validA df j = true ∧
          bs[i].rwp = wordAtLE (blockWindow df 0x1000 j) 0x30 % 2 ^ 24 * 2)) := by
  unfold getBlocksDataA at hA
  rw [mapM_ok_of_total (mkBlockA df) (mkObjA df) _ (fun a _ => mkBlockA_eq df a)] at hA
  simp only [ok_bind] at hA
  have hread : ∀ b ∈ ((List.range nA).map (mkObjA df)).filter (·.isValid),
      (do
        let v ← readUint32 (jsSubarray b.buf 0x30 0x33) 0 true
        Except.ok (v * 2)) = Except.ok (wordAtLE b.buf 0x30 % 2 ^ 24 * 2) := by
    intro b hb
    obtain ⟨j, hjr, hbe⟩ := List.mem_map.mp (List.mem_of_mem_filter hb)
    subst hbe
    rw [readUint32_slice3L _ 0x30 0x33 0x30 (by norm_num) (by norm_num)
      (by show (0x30 + 3 : Nat) ≤ (blockWindow df 0x1000 j).length
          rw [blockWindow_length]; norm_num)]
    rfl
  rw [mapM_ok_of_total _ (fun b => wordAtLE b.buf 0x30 % 2 ^ 24 * 2) _ hread] at hA
  simp only [ok_bind] at hA
  have hres := assignRwps_inv 0x1000
    (fun v => ∃ j < nA, validA df j = true ∧
      v = wordAtLE (blockWindow df 0x1000 j) 0x30 % 2 ^ 24 * 2)
    (fun i b => b.id = i ∧ b.buf = blockWindow df 0x1000 i ∧
      b.eraseCount = wordAtLE (blockWindow df 0x1000 i) 0x28 % 2 ^ 24)
    (fun i b v hb => by simpa using hb)
    _ _ _ hA
    (by
      intro v hv
      obtain ⟨b, hbf, hbe⟩ := List.mem_map.mp hv
      obtain ⟨j, hjr, hbj⟩ := List.mem_map.mp (List.mem_of_mem_filter hbf)
      subst hbj
      refine ⟨j, List.mem_range.mp hjr, ?_, ?_⟩
      · exact (List.mem_filter.mp hbf).2
      · exact hbe.symm)
    (by
      intro i h
      rw [List.getElem_map, List.getElem_range]
      exact ⟨⟨rfl, rfl, rfl⟩, Or.inl rfl⟩)
  obtain ⟨hlen, hmem⟩ := hres
  rw [List.length_map, List.length_range] at hlen
  refine ⟨hlen, ?_⟩
  intro i h
  obtain ⟨⟨hid, hbuf, hec⟩, hrwp⟩ := hmem i h
  exact ⟨hid, hbuf, hec, hrwp⟩

theorem getBlocksDataB_inv (df : List Nat) (nB : Nat) (bs : List DFBlock)
    (hB : getBlocksDataB df nB = Except.ok bs) :
    bs.length = nB ∧
    ∀ i (h : i < bs.length),
      bs[i].id = i ∧ bs[i].buf = blockWindow df 0x800 i ∧
      bs[i].eraseCount = wordAtLE (blockWindow df 0x800 i) 0x10 % 2 ^ 24 ∧
      (bs[i].rwp = 0 ∨ (bs[i].rwp / 0x800 = i ∧
        ∃ j < nB, validB df j = true ∧
          bs[i].rwp = wordAtLE (blockWindow df 0x800 j) 0x14 % 2 ^ 24)) := by
  unfold getBlocksDataB at hB
  rw [mapM_ok_of_total (mkBlockB df) (mkObjB df) _ (fun a _ => mkBlockB_eq df a)] at hB
  simp only [ok_bind] at hB
  have hread : ∀ b ∈ ((List.range nB).map (mkObjB df)).filter (·.isValid),
      readUint32 (jsSubarray b.buf 0x14 0x17) 0 true =
        Except.ok (wordAtLE b.buf 0x14 % 2 ^ 24) := by
    intro b hb
    obtain ⟨j, hjr, hbe⟩ := List.mem_map.mp (List.mem_of_mem_filter hb)
    subst hbe
    exact readUint32_slice3L _ 0x14 0x17 0x14 (by norm_num) (by norm_num)
      (by show (0x14 + 3 : Nat) ≤ (blockWindow df 0x800 j).length
          rw [blockWindow_length]; norm_num)
  rw [mapM_ok_of_total _ (fun b => wordAtLE b.buf 0x14 % 2 ^ 24) _ hread] at hB
  simp only [ok_bind] at hB
  have hres := assignRwps_inv 0x800
    (fun v => ∃ j < nB, validB df j = true ∧
      v = wordAtLE (blockWindow df 0x800 j) 0x14 % 2 ^ 24)
    (fun i b => b.id = i ∧ b.buf = blockWindow df 0x800 i ∧
      b.eraseCount = wordAtLE (blockWindow df 0x800 i) 0x10 % 2 ^ 24)
    (fun i b v hb => by simpa using hb)
    _ _ _ hB
    (by
      intro v hv
      obtain ⟨b, hbf, hbe⟩ := List.mem_map.mp hv
      obtain ⟨j, hjr, hbj⟩ := List.mem_map.mp (List.mem_of_mem_filter hbf)
      subst hbj
      refine ⟨j, List.mem_range.mp hjr, ?_, ?_⟩
      · exact (List.mem_filter.mp hbf).2
      · exact hbe.symm)
    (by
      intro i h
      rw [List.getElem_map, List.getElem_range]
      exact ⟨⟨rfl, rfl, rfl⟩, Or.inl rfl⟩)
  obtain ⟨hlen, hmem⟩ := hres
  rw [List.length_map, List.length_range] at hlen
  refine ⟨hlen, ?_⟩
  intro i h
  obtain ⟨⟨hid, hbuf, hec⟩, hrwp⟩ := hmem i h
  exact ⟨hid, hbuf, hec, hrwp⟩

/-! ### Concrete catalog runs of the witness images -/

theorem dfA1_validBlock : isValidBlockA dfA1 = Except.ok true := by
  unfold isValidBlockA
  rw [if_neg (by rw [dfA1_length]; decide)]
  rw [dfA1_read 0x10 0x10 0x55555555 (by decide) (by norm_num) (by decide)]
  simp only [ok_bind]
  rw [if_neg (by decide)]
  rw [dfA1_read 0x18 0x18 0x55555555 (by decide) (by norm_num) (by decide)]
  simp only [ok_bind]
  rw [if_neg (by decide)]
  rw [dfA1_read 0x20 0x20 0x55555555 (by decide) (by norm_num) (by decide)]
  simp only [ok_bind]
  rfl

theorem dfA2_validBlock : isValidBlockA dfA2 = Except.ok true := by
  unfold isValidBlockA
  rw [if_neg (by rw [dfA2_length]; decide)]
  rw [dfA2_read 0x10 0x10 0x55555555 (by decide) (by norm_num) (by decide)]
  simp only [ok_bind]
  rw [if_neg (by decide)]
  rw [dfA2_read 0x18 0x18 0x55555555 (by decide) (by norm_num) (by decide)]
  simp only [ok_bind]
  rw [if_neg (by decide)]
  rw [dfA2_read 0x20 0x20 0x55555555 (by decide) (by norm_num) (by decide)]
  simp only [ok_bind]
  rfl

theorem dfB1_cks1 : checkSum8bit dfB1 0x10 0x13 = 0xff := by
  show checkSum8bit ((List.range 0x800).map dfB1fn) 0x10 0x13 = 0xff
  exact checkSum8bit_map_range dfB1fn 0x800 0x10 0x13 0xff (by norm_num) (by decide)

theorem dfB1_cks2 : checkSum8bit dfB1 0x14 0x17 = 0xff := by
  show checkSum8bit ((List.range 0x800).map dfB1fn) 0x14 0x17 = 0xff
  exact checkSum8bit_map_range dfB1fn 0x800 0x14 0x17 0xff (by norm_num) (by decide)

theorem dfB1_validBlock : isValidBlockB dfB1 = Except.ok true := by
  unfold isValidBlockB
  rw [dfB1_read 0x4 0x4 0x55555555 (by decide) (by norm_num) (by decide)]
  simp only [ok_bind]
  rw [if_neg (by decide)]
  rw [dfB1_read 0x8 0x8 0x55555555 (by decide) (by norm_num) (by decide)]
  simp only [ok_bind]
  rw [if_neg (by decide)]
  rw [dfB1_read 0xc 0xc 0x55555555 (by decide) (by norm_num) (by decide)]
  simp only [ok_bind]
  rw [if_neg (by decide)]
  rw [dfB1_cks1, dfB1_cks2]
  rfl

/-- Single-block, single-rwp instance of the rwp registration pass. -/
theorem assignRwps_one (blockSize : Nat) (b b' : DFBlock) (v : Nat)
    (hv : v / blockSize = 0) (hb : { b with rwp := v } = b') :
    assignRwps blockSize [b] [v] = Except.ok [b'] := by
  unfold assignRwps
  simp only [List.foldlM_cons, List.foldlM_nil, hv, List.getElem?_cons_zero]
  simp only [ok_bind, List.set_cons_zero, hb]
  rfl

theorem dfA1_blkcat : getBlocksDataA dfA1 1 = Except.ok [blkA1] := by
  have hwin : blockWindow dfA1 0x1000 0 = dfA1 := blockWindow_self _ _ dfA1_length
  have hvA : validA dfA1 0 = true := by
    unfold validA
    rw [hwin, dfA1_validBlock]
  have hobj : mkObjA dfA1 0 = blkA1 := by
    unfold mkObjA
    rw [hwin, hvA, dfA1_word 0x28 0x01000000 (by norm_num) (by decide)]
    rfl
  unfold getBlocksDataA
  rw [mapM_ok_of_total (mkBlockA dfA1) (mkObjA dfA1) _ (fun a _ => mkBlockA_eq dfA1 a)]
  simp only [ok_bind]
  rw [show (List.range 1).map (mkObjA dfA1) = [blkA1] from by
    rw [show List.range 1 = [0] from by decide, List.map_cons, List.map_nil, hobj]]
  have hfil : List.filter (fun b => b.isValid) [blkA1] = [blkA1] := rfl
  rw [hfil]
  simp only [List.mapM_cons, List.mapM_nil]
  rw [show blkA1.buf = dfA1 from by simp only [blkA1]]
  rw [readUint32_slice3L dfA1 0x30 0x33 0x30 (by decide) (by decide)
    (by rw [dfA1_length]; norm_num)]
  simp only [ok_bind]
  rw [dfA1_word 0x30 0 (by norm_num) (by decide)]
  rw [show (0 % 2 ^ 24 * 2 : Nat) = 0 from by norm_num]
  simp only [ok_bind, pure_bind]
  exact assignRwps_one 0x1000 blkA1 blkA1 0 (by norm_num) (by simp only [blkA1])

theorem dfA2_blkcat : getBlocksDataA dfA2 1 = Except.ok [blkA2] := by
  have hwin : blockWindow dfA2 0x1000 0 = dfA2 := blockWindow_self _ _ dfA2_length
  have hvA : validA dfA2 0 = true := by
    unfold validA
    rw [hwin, dfA2_validBlock]
  have hobj : mkObjA dfA2 0 = blkA2 := by
    unfold mkObjA
    rw [hwin, hvA, dfA2_word 0x28 0 (by norm_num) (by decide)]
    rfl
  unfold getBlocksDataA
  rw [mapM_ok_of_total (mkBlockA dfA2) (mkObjA dfA2) _ (fun a _ => mkBlockA_eq dfA2 a)]
  simp only [ok_bind]
  rw [show (List.range 1).map (mkObjA dfA2) = [blkA2] from by
    rw [show List.range 1 = [0] from by decide, List.map_cons, List.map_nil, hobj]]
  have hfil : List.filter (fun b => b.isValid) [blkA2] = [blkA2] := rfl
  rw [hfil]
  simp only [List.mapM_cons, List.mapM_nil]
  rw [show blkA2.buf = dfA2 from by simp only [blkA2]]
  rw [readUint32_slice3L dfA2 0x30 0x33 0x30 (by decide) (by decide)
    (by rw [dfA2_length]; norm_num)]
  simp only [ok_bind]
  rw [dfA2_word 0x30 0 (by norm_num) (by decide)]
  rw [show (0 % 2 ^ 24 * 2 : Nat) = 0 from by norm_num]
  simp only [ok_bind, pure_bind]
  exact assignRwps_one 0x1000 blkA2 blkA2 0 (by norm_num) (by simp only [blkA2])

theorem dfB1_blkcat : getBlocksDataB dfB1 1 = Except.ok [blkB1] := by
  have hwin : blockWindow dfB1 0x800 0 = dfB1 := blockWindow_self _ _ dfB1_length
  have hvB : validB dfB1 0 = true := by
    unfold validB
    rw [hwin, dfB1_validBlock]
  have hobj : mkObjB dfB1 0 = blkB10 := by
    unfold mkObjB
    rw [hwin, hvB, dfB1_word 0x10 0xff000000 (by norm_num) (by decide)]
    rfl
  unfold getBlocksDataB
  rw [mapM_ok_of_total (mkBlockB dfB1) (mkObjB dfB1) _ (fun a _ => mkBlockB_eq dfB1 a)]
  simp only [ok_bind]
  rw [show (List.range 1).map (mkObjB dfB1) = [blkB10] from by
    rw [show List.range 1 = [0] from by decide, List.map_cons, List.map_nil, hobj]]
  have hfil : List.filter (fun b => b.isValid) [blkB10] = [blkB10] := rfl
  rw [hfil]
  simp only [List.mapM_cons, List.mapM_nil]
  rw [show blkB10.buf = dfB1 from by simp only [blkB10]]
  rw [readUint32_slice3L dfB1 0x14 0x17 0x14 (by decide) (by decide)
    (by rw [dfB1_length]; norm_num)]
  simp only [ok_bind]
  rw [dfB1_word 0x14 0x9b000064 (by norm_num) (by decide)]
  rw [show (0x9b000064 % 2 ^ 24 : Nat) = 0x64 from by norm_num]
  simp only [ok_bind, pure_bind]
  exact assignRwps_one 0x800 blkB10 blkB1 0x64 (by norm_num)
    (by simp only [blkB10, blkB1])

/-- C7 counterexample: the family-A image `dfA1` yields a valid catalog
block whose header word at offset `0x28` is `0x01000000`, yet the extracted
`eraseCount` is `0` — the code reads only the three bytes `0x28`–`0x2a`
(`subarray(0x28, 0x2b)` has an exclusive end) and zero-pads the top byte,
so the catalog value is not the full 32-bit little-endian word. -/
theorem c7_extraction_counterexample :
    (blockAt (getBlocksDataA dfA1 1) 0).isValid = true ∧
    wordAtLE (blockAt (getBlocksDataA dfA1 1) 0).buf 0x28 = 0x01000000 ∧
    (blockAt (getBlocksDataA dfA1 1) 0).eraseCount = 0 := by
  rw [dfA1_blkcat]
  refine ⟨rfl, ?_, rfl⟩
  rw [show (blockAt (Except.ok [blkA1]) 0).buf = dfA1 from by
    simp only [blockAt, List.getD_cons_zero, blkA1]]
  exact dfA1_word 0x28 0x01000000 (by norm_num) (by decide)

/-- C7 (amended): for every catalog block of either family, `eraseCount`
equals the 24-bit value of the three bytes at the erase-counter offset
(the 32-bit little-endian word reduced modulo `2^24`), and every non-zero
registered write pointer is stored at the block index it addresses and
equals twice the 24-bit value at offset `0x30` of some valid block
(family A), or the 24-bit value at offset `0x14` of some valid block
(family B). -/
theorem c7_extraction_amended (dfA dfB : List Nat) (nA nB : Nat)
    (bsA bsB : List DFBlock)
    (hA : getBlocksDataA dfA nA = Except.ok bsA)
    (hB : getBlocksDataB dfB nB = Except.ok bsB) :
    (∀ i (h : i < bsA.length),
      bsA[i].eraseCount = wordAtLE bsA[i].buf 0x28 % 2 ^ 24 ∧
      (bsA[i].rwp = 0 ∨ (bsA[i].rwp / 0x1000 = i ∧
        ∃ j < nA, validA dfA j = true ∧
          bsA[i].rwp = wordAtLE (blockWindow dfA 0x1000 j) 0x30 % 2 ^ 24 * 2))) ∧
    (∀ i (h : i < bsB.length),
      bsB[i].eraseCount = wordAtLE bsB[i].buf 0x10 % 2 ^ 24 ∧
      (bsB[i].rwp = 0 ∨ (bsB[i].rwp / 0x800 = i ∧
        ∃ j < nB, validB dfB j = true ∧
          bsB[i].rwp = wordAtLE (blockWindow dfB 0x800 j) 0x14 % 2 ^ 24))) := by
  obtain ⟨-, hmemA⟩ := getBlocksDataA_inv dfA nA bsA hA
  obtain ⟨-, hmemB⟩ := getBlocksDataB_inv dfB nB bsB hB
  constructor
  · intro i h
    obtain ⟨-, hbuf, hec, hrwp⟩ := hmemA i h
    exact ⟨hbuf ▸ hec, hrwp⟩
  · intro i h
    obtain ⟨-, hbuf, hec, hrwp⟩ := hmemB i h
    exact ⟨hbuf ▸ hec, hrwp⟩

/-- Witness for the amended C7 at the concrete one-block images `dfA1`
(family A) and `dfB1` (family B). -/
theorem c7_extraction_amended_witness :
    blkA1.eraseCount = wordAtLE blkA1.buf 0x28 % 2 ^ 24 ∧
    blkB1.eraseCount = wordAtLE blkB1.buf 0x10 % 2 ^ 24 := by
  have h := c7_extraction_amended dfA1 dfB1 1 1 [blkA1] [blkB1] dfA1_blkcat dfB1_blkcat
  exact ⟨(h.1 0 (by simp)).1, (h.2 0 (by simp)).1⟩

/-! ### Generic step lemmas for the family-B backward walk -/

/-- Guard-rejected descriptor slot: `readDataEntryB` returns the table
unchanged and no entry. -/
theorem readDataEntryB_skip (eep : MapB) (block : DFBlock) (refAddr w1 w2 w3 w : Nat)
    (h1 : readUint32 block.buf ((refAddr : Int) - 0x4) true = Except.ok w1)
    (h2 : readUint32 block.buf ((refAddr : Int) - 0x8) true = Except.ok w2)
    (h3 : readUint32 block.buf ((refAddr : Int) - 0xc) true = Except.ok w3)
    (h4 : readUint32 block.buf (refAddr : Int) true = Except.ok w)
    (hrej : w1 ≠ 0x55555555 ∨ w2 ≠ 0x55555555 ∨ w3 ≠ 0x55555555 ∨
      jsSar w 0x10 ≥ 0x800) :
    readDataEntryB eep block refAddr = Except.ok (eep, none) := by
  unfold readDataEntryB
  rw [h1, h2, h3, h4]
  simp only [ok_bind]
  rw [if_pos hrej]

/-- Guard-accepted descriptor slot: `readDataEntryB` appends the freshly
read words to the id's entry, refills its byte buffer, overwrites its
location fields and — the entry object being aliased into the table —
returns the mutated table together with the mutated entry. -/
theorem readDataEntryB_hit (eep : MapB) (block : DFBlock) (refAddr w id : Nat)
    (widx : Int) (entry outEntry : EepDataB) (outMap : MapB)
    (newWords dataBuf0 : List Nat)
    (h1 : readUint32 block.buf ((refAddr : Int) - 0x4) true = Except.ok 0x55555555)
    (h2 : readUint32 block.buf ((refAddr : Int) - 0x8) true = Except.ok 0x55555555)
    (h3 : readUint32 block.buf ((refAddr : Int) - 0xc) true = Except.ok 0x55555555)
    (h4 : readUint32 block.buf (refAddr : Int) true = Except.ok w)
    (hwidx : jsSar w 0x10 = widx) (hwlt : widx < 0x800)
    (hid : w % 0x10000 = id)
    (hentry : eep id = some entry)
    (henc : ¬ entry.encLen > 0x2000)
    (hwords : (List.range ((entry.encLen + 3) / 4)).mapM
        (fun (j : Nat) => readUint32 block.buf (widx - (j : Int) * 4) true) =
      Except.ok newWords)
    (hfill : fillBuf entry.dataBuf (entry.data ++ newWords) = Except.ok dataBuf0)
    (hout : { entry with
              data := entry.data ++ newWords, dataBuf := dataBuf0,
              widx := widx, widx_abs := widx + 0x800 * (block.id : Int),
              addr := refAddr + 0x800 * block.id } = outEntry)
    (houtm : updateB eep id outEntry = outMap) :
    readDataEntryB eep block refAddr = Except.ok (outMap, some outEntry) := by
  unfold readDataEntryB
  rw [h1, h2, h3, h4]
  simp only [ok_bind]
  rw [hwidx, hid]
  rw [if_neg (by push_neg; exact ⟨rfl, rfl, rfl, hwlt⟩)]
  rw [hentry]
  simp only [ok_bind]
  rw [if_neg henc]
  rw [hwords]
  simp only [ok_bind]
  rw [hfill]
  simp only [ok_bind]
  rw [hout, houtm]

/-- A rejected slot leaves the record table as the read returned it. -/
theorem popSlotB_skip (block : DFBlock) (eep eep' : MapB) (refAddr : Nat)
    (hde : readDataEntryB eep block refAddr = Except.ok (eep', none)) :
    popSlotB block eep refAddr = Except.ok eep' := by
  unfold popSlotB
  simp only [hde, ok_bind]

/-- An accepted slot whose id already holds data keeps the table exactly
as the read (which already mutated the entry) left it. -/
theorem popSlotB_keep (block : DFBlock) (eep eep' : MapB) (refAddr : Nat)
    (de cur : EepDataB)
    (hde : readDataEntryB eep block refAddr = Except.ok (eep', some de))
    (hcur : eep' de.id = some cur) (hne : cur.data.length ≠ 0) :
    popSlotB block eep refAddr = Except.ok eep' := by
  unfold popSlotB
  simp only [hde, ok_bind, hcur]
  rw [if_pos hne]

/-- One populated block with a recorded rwp: the backward walk folds
`popSlotB` over the descriptor slot addresses. -/
theorem popBlockB_run (active : List Nat) (blocks : List DFBlock) (eep eep' : MapB)
    (blockId blockNum : Nat) (block : DFBlock)
    (hA : active[blockId]? = some blockNum)
    (hB : blocks[blockNum]? = some block)
    (hrwp : ¬ block.rwp = 0)
    (hfold : (slotAddrsB block.rwp).foldlM (popSlotB block) eep = Except.ok eep') :
    popBlockB active (blocks, eep) blockId =
      Except.ok (blocks.set blockNum block, eep') := by
  unfold popBlockB
  simp only [hA, hB, ok_bind]
  rw [if_neg hrwp]
  simp only [ok_bind,
    show ({ block with rwp := block.rwp } : DFBlock) = block from rfl, hfold]

/-! ### Concrete family-B pipeline run: image `dfB1` with code flash `cfB1` -/

theorem cfB1_step : popTableStep cfB1 tbB1 emptyMapB 0 = Except.ok eepB1 := by
  unfold popTableStep
  rw [show readUint32 (tableBuf cfB1 tbB1.pointer_rom tbB1.entries)
      (((0 : Nat) : Int) * 4) true = Except.ok 0x00040010 from by decide]
  simp only [ok_bind]
  rw [show jsSar 0x00040010 0x10 = (4 : Int) from by decide]
  rw [if_neg (by decide)]
  rw [show ((4 : Int).toNat : Nat) = 4 from by decide]
  rw [show (0x00040010 % 0x10000 : Nat) = 0x10 from by norm_num]
  rw [if_neg (by decide)]
  simp only [eepB1, stubB1]

theorem cfB1_table : tableStage cfB1 0 = Except.ok (tbB1, eepB1) := by
  unfold tableStage
  rw [show getDataTable cfB1 0 = Except.ok tbB1 from by decide]
  simp only [ok_bind]
  unfold populateDataInfoWTable
  rw [show List.range tbB1.entries = [0] from by decide]
  simp only [List.foldlM_cons, List.foldlM_nil]
  rw [cfB1_step]
  simp only [ok_bind]
  rfl

theorem dfB1_slot60 :
    readDataEntryB eepB1 blkB1 0x60 = Except.ok (eepB1a, some entryB1a) := by
  have hb : blkB1.buf = dfB1 := by simp only [blkB1]
  exact readDataEntryB_hit eepB1 blkB1 0x60 0x01000010 0x10 0x100 stubB1 entryB1a eepB1a
    [0xaa] entryB1a.dataBuf
    (by rw [hb]; exact dfB1_read _ 0x5c 0x55555555 (by omega) (by norm_num) (by decide))
    (by rw [hb]; exact dfB1_read _ 0x58 0x55555555 (by omega) (by norm_num) (by decide))
    (by rw [hb]; exact dfB1_read _ 0x54 0x55555555 (by omega) (by norm_num) (by decide))
    (by rw [hb]; exact dfB1_read _ 0x60 0x01000010 (by omega) (by norm_num) (by decide))
    (by decide) (by decide) (by decide) (by decide) (by decide)
    (by
      rw [show ((stubB1.encLen + 3) / 4 : Nat) = 1 from by decide]
      rw [show List.range 1 = [0] from by decide]
      simp only [List.mapM_cons, List.mapM_nil, hb]
      rw [dfB1_read ((0x100 : Int) - ((0 : Nat) : Int) * 4) 0x100 0xaa (by omega)
        (by norm_num) (by decide)]
      rfl)
    (by decide) (by decide) rfl

theorem dfB1_slot50 :
    readDataEntryB eepB1a blkB1 0x50 = Except.ok (eepB1f, some entryB1b) := by
  have hb : blkB1.buf = dfB1 := by simp only [blkB1]
  exact readDataEntryB_hit eepB1a blkB1 0x50 0x02000010 0x10 0x200 entryB1a entryB1b eepB1f
    [0xbb] entryB1b.dataBuf
    (by rw [hb]; exact dfB1_read _ 0x4c 0x55555555 (by omega) (by norm_num) (by decide))
    (by rw [hb]; exact dfB1_read _ 0x48 0x55555555 (by omega) (by norm_num) (by decide))
    (by rw [hb]; exact dfB1_read _ 0x44 0x55555555 (by omega) (by norm_num) (by decide))
    (by rw [hb]; exact dfB1_read _ 0x50 0x02000010 (by omega) (by norm_num) (by decide))
    (by decide) (by decide) (by decide) (by decide) (by decide)
    (by
      rw [show ((entryB1a.encLen + 3) / 4 : Nat) = 1 from by decide]
      rw [show List.range 1 = [0] from by decide]
      simp only [List.mapM_cons, List.mapM_nil, hb]
      rw [dfB1_read ((0x200 : Int) - ((0 : Nat) : Int) * 4) 0x200 0xbb (by omega)
        (by norm_num) (by decide)]
      rfl)
    (by decide) (by decide) rfl

theorem dfB1_slot40 : readDataEntryB eepB1f blkB1 0x40 = Except.ok (eepB1f, none) := by
  have hb : blkB1.buf = dfB1 := by simp only [blkB1]
  exact readDataEntryB_skip eepB1f blkB1 0x40 0 0 0 0
    (by rw [hb]; exact dfB1_read _ 0x3c 0 (by omega) (by norm_num) (by decide))
    (by rw [hb]; exact dfB1_read _ 0x38 0 (by omega) (by norm_num) (by decide))
    (by rw [hb]; exact dfB1_read _ 0x34 0 (by omega) (by norm_num) (by decide))
    (by rw [hb]; exact dfB1_read _ 0x40 0 (by omega) (by norm_num) (by decide))
    (Or.inl (by decide))

theorem dfB1_slot30 : readDataEntryB eepB1f blkB1 0x30 = Except.ok (eepB1f, none) := by
  have hb : blkB1.buf = dfB1 := by simp only [blkB1]
  exact readDataEntryB_skip eepB1f blkB1 0x30 0 0 0 0
    (by rw [hb]; exact dfB1_read _ 0x2c 0 (by omega) (by norm_num) (by decide))
    (by rw [hb]; exact dfB1_read _ 0x28 0 (by omega) (by norm_num) (by decide))
    (by rw [hb]; exact dfB1_read _ 0x24 0 (by omega) (by norm_num) (by decide))
    (by rw [hb]; exact dfB1_read _ 0x30 0 (by omega) (by norm_num) (by decide))
    (Or.inl (by decide))

theorem dfB1_slots :
    (slotAddrsB blkB1.rwp).foldlM (popSlotB blkB1) eepB1 = Except.ok eepB1f := by
  rw [show blkB1.rwp = 0x64 from by simp only [blkB1]]
  rw [show slotAddrsB 0x64 = [0x60, 0x50, 0x40, 0x30] from by decide]
  simp only [List.foldlM_cons, List.foldlM_nil]
  rw [popSlotB_keep blkB1 eepB1 eepB1a 0x60 entryB1a entryB1a dfB1_slot60 (by decide)
    (by decide)]
  simp only [ok_bind]
  rw [popSlotB_keep blkB1 eepB1a eepB1f 0x50 entryB1b entryB1b dfB1_slot50 (by decide)
    (by decide)]
  simp only [ok_bind]
  rw [popSlotB_skip blkB1 eepB1f eepB1f 0x40 dfB1_slot40]
  simp only [ok_bind]
  rw [popSlotB_skip blkB1 eepB1f eepB1f 0x30 dfB1_slot30]
  simp only [ok_bind]
  rfl

theorem dfB1_active : getActiveBlocksOrderedList [blkB1] = [0] := by decide

theorem dfB1_state : rh850Construct dfB1 cfB1 0 = Except.ok stB1 := by
  unfold rh850Construct
  rw [dfB1_length]
  rw [show necConstruct 0x800 0x800 = Except.ok 1 from by decide]
  simp only [ok_bind]
  rw [cfB1_table]
  simp only [ok_bind]
  rw [dfB1_blkcat]
  simp only [ok_bind]
  rw [dfB1_active]
  rw [show List.range ([0] : List Nat).length = [0] from by decide]
  simp only [List.foldlM_cons, List.foldlM_nil]
  rw [popBlockB_run [0] [blkB1] eepB1 eepB1f 0 0 blkB1 rfl rfl (by decide) dfB1_slots]
  simp only [ok_bind]
  rw [show ([blkB1].set 0 blkB1 : List DFBlock) = [blkB1] from rfl]
  rfl

/-! ### Concrete family-A pipeline run: image `dfA2` -/

theorem dfA2_entry :
    readDataEntryA dfA2 [blkA2] 0x30 5 0xfffffff6 0 none = Except.ok [0x4] := by
  unfold readDataEntryA accumPhaseA
  rw [dfA2_read ((0x30 : Int) * 8) 0x180 0x4 (by omega) (by norm_num) (by decide)]
  simp only [ok_bind]
  rw [show ((0x4 % 0x10000 + 3) / 4 : Nat) = 1 from by norm_num]
  unfold accumLoopA
  rw [if_neg (by decide)]
  rw [dfA2_read (((0x30 : Int) - ((0 : Nat) : Int)) * 8) 0x180 0x4 (by omega)
    (by norm_num) (by decide)]
  simp only [ok_bind]
  rw [if_neg (by decide)]
  simp only [List.nil_append, ok_bind]
  rw [if_neg (by decide)]

theorem dfA2_body :
    popBodyA dfA2 [blkA2] 0 0 0 none dfA2 emptyMapA 4 0x00300005 =
      Except.ok (updateA emptyMapA 5 entryA2) := by
  unfold popBodyA
  rw [dfA2_read (((4 : Nat) : Int) * 0x10 + 0x8) 0x48 0xfffffff6 (by omega)
    (by norm_num) (by decide)]
  simp only [ok_bind]
  rw [show jsSar 0x00300005 0x10 = (0x30 : Int) from by decide]
  rw [show (0x00300005 % 0x10000 : Nat) = 5 from by norm_num]
  rw [dfA2_entry]
  simp only [ok_bind]
  rw [if_pos (by decide : (([0x4] : List Nat)).length ≠ 0)]
  rw [show fillBuf (List.replicate (([0x4] : List Nat).length * 4) 0) [0x4] =
    Except.ok [0x4, 0, 0, 0] from by decide]
  simp only [ok_bind]
  congr 1

theorem dfA2_pop :
    popBlockA dfA2 [blkA2] [0] emptyMapA 0 = Except.ok (updateA emptyMapA 5 entryA2) := by
  unfold popBlockA
  rw [show (([0] : List Nat))[0]? = some 0 from rfl]
  simp only [ok_bind]
  rw [if_pos (show some 0 = ([0] : List Nat).getLast? from by decide)]
  rw [show (([blkA2] : List DFBlock))[0]? = some blkA2 from rfl]
  simp only [ok_bind]
  rw [show blkA2.buf = dfA2 from by simp only [blkA2],
    show blkA2.rwp = 0 from by simp only [blkA2]]
  rw [dfA2_read 0x40 0x40 0x00300005 (by decide) (by norm_num) (by decide)]
  simp only [ok_bind]
  rw [show (0x200 : Nat) = 0x1ff + 1 from rfl]
  unfold popLoopA
  rw [if_neg (by decide)]
  rw [dfA2_body]
  simp only [ok_bind]
  rw [dfA2_read ((((4 : Nat) : Int) + 1) * 0x10) 0x50 0xffffffff (by omega)
    (by norm_num) (by decide)]
  simp only [ok_bind]
  rw [if_neg (by decide)]
  rw [show (0x1ff : Nat) = 0x1fe + 1 from rfl]
  unfold popLoopA
  rw [if_pos rfl]

theorem dfA2_active : getActiveBlocksOrderedList [blkA2] = [0] := by decide

theorem dfA2_state : v850Construct dfA2 = Except.ok stA2 := by
  unfold v850Construct
  rw [dfA2_length]
  rw [show necConstruct 0x1000 0x1000 = Except.ok 1 from by decide]
  simp only [ok_bind]
  rw [dfA2_blkcat]
  simp only [ok_bind]
  rw [dfA2_active]
  rw [show List.range ([0] : List Nat).length = [0] from by decide]
  simp only [List.foldlM_cons, List.foldlM_nil]
  rw [dfA2_pop]
  simp only [ok_bind]
  rfl

/-- C1 (code bug): on the two-slot image `dfB1` the older duplicate slot
for id `0x10` does NOT leave the entry unchanged — `readDataEntry` mutates
the aliased entry (appending the older payload word and overwriting
`widx`/`widx_abs`/`addr`) before the duplicate check runs, so the final
entry carries the older slot's location (`widx = 0x200`, `addr = 0x50`)
and both payload words `[0xaa, 0xbb]` instead of the newest slot's
`widx = 0x100`, `addr = 0x60`, `[0xaa]`. -/
theorem c1_duplicate_slot_mutates :
    (rh850Eep dfB1 cfB1 0 0x10).map (fun e => (e.widx, e.data, e.addr)) =
      some ((0x200 : Int), ([0xaa, 0xbb] : List Nat), (0x50 : Nat)) := by
  unfold rh850Eep
  rw [dfB1_state]
  decide

/-! ### Serialization and fill-loop net effect (C9) -/

theorem bind_ok_inv {ε α β : Type} {x : Except ε α} {f : α → Except ε β} {b : β}
    (h : (x >>= f) = Except.ok b) : ∃ a, x = Except.ok a ∧ f a = Except.ok b := by
  cases x with
  | error e => exact absurd h (by simp)
  | ok a => exact ⟨a, rfl, h⟩

theorem leBytes_length (w : Nat) : (leBytes w).length = 4 := rfl

theorem serializeLE_nil : serializeLE [] = [] := rfl

theorem serializeLE_cons (w : Nat) (ws : List Nat) :
    serializeLE (w :: ws) = leBytes w ++ serializeLE ws := by
  unfold serializeLE
  rw [List.flatMap_cons]

theorem serializeLE_length (ws : List Nat) : (serializeLE ws).length = 4 * ws.length := by
  induction ws with
  | nil => rfl
  | cons w ws ih =>
    rw [serializeLE_cons, List.length_append, leBytes_length, ih, List.length_cons]
    ring

theorem int32ToWord_ok (w : Nat) (h : w < 2 ^ 32) :
    int32ToWord (w : Int) true = Except.ok (leBytes w) := by
  have hm : (((w : Int) % (2 ^ 32 : Int)).toNat) = w := by omega
  unfold int32ToWord
  rw [if_neg (by omega)]
  simp only [hm]
  rw [if_pos trivial]
  rfl

theorem jsCopyInto_length (target src : List Nat) (tstart : Nat) :
    (jsCopyInto target src tstart).length = target.length := by
  simp only [jsCopyInto, List.length_append, List.length_take, List.length_drop]
  omega

theorem jsCopyInto_beyond (target src : List Nat) (tstart : Nat)
    (h : target.length ≤ tstart) : jsCopyInto target src tstart = target := by
  simp only [jsCopyInto]
  rw [show min src.length (target.length - tstart) = 0 from by omega]
  rw [List.take_of_length_le (by omega), List.take_zero,
    List.drop_eq_nil_of_le (by omega)]
  simp

theorem jsCopyInto_append (t0 rest src : List Nat) (s : Nat) :
    jsCopyInto (t0 ++ rest) src (t0.length + s) = t0 ++ jsCopyInto rest src s := by
  simp only [jsCopyInto, List.length_append]
  rw [show t0.length + rest.length - (t0.length + s) = rest.length - s from by omega]
  rw [List.take_append_eq_append_take, List.take_of_length_le (by omega),
    show t0.length + s - t0.length = s from by omega]
  rw [List.drop_append_eq_append_drop, List.drop_eq_nil_of_le (by omega),
    show t0.length + s + min src.length (rest.length - s) - t0.length
      = s + min src.length (rest.length - s) from by omega]
  simp [List.append_assoc]

theorem fillLoop_beyond (ws : List Nat) :
    ∀ (target : List Nat) (j : Nat), (∀ w ∈ ws, w < 2 ^ 32) → target.length ≤ j * 4 →
      fillLoop target ws j = Except.ok target := by
  induction ws with
  | nil => intro target j _ _; rfl
  | cons w ws ih =>
    intro target j hw h
    unfold fillLoop
    rw [int32ToWord_ok w (hw w (List.Mem.head _))]
    simp only [ok_bind]
    rw [jsCopyInto_beyond _ _ _ (by omega)]
    exact ih _ _ (fun x hx => hw x (List.Mem.tail _ hx))
      (by omega)

theorem fillLoop_shift (ws : List Nat) :
    ∀ (t0 rest : List Nat) (j : Nat), t0.length = 4 →
      fillLoop (t0 ++ rest) ws (j + 1) =
        (fillLoop rest ws j).map (fun r => t0 ++ r) := by
  induction ws with
  | nil => intro t0 rest j _; rfl
  | cons w ws ih =>
    intro t0 rest j h4
    unfold fillLoop
    cases int32ToWord (w : Int) true with
    | error e => rfl
    | ok wb =>
      simp only [ok_bind]
      rw [show (j + 1) * 4 = t0.length + j * 4 from by omega]
      rw [jsCopyInto_append t0 rest wb (j * 4)]
      exact ih _ _ _ h4

theorem writeData_cons (target : List Nat) (w : Nat) (ws : List Nat)
    (h : 4 ≤ target.length) :
    writeData target (w :: ws) = leBytes w ++ writeData (target.drop 4) ws := by
  unfold writeData
  rw [serializeLE_cons, List.take_append_eq_append_take,
    List.take_of_length_le (by rw [leBytes_length]; omega), leBytes_length,
    List.length_drop, List.drop_drop,
    show min target.length (4 * (w :: ws).length)
      = 4 + min (target.length - 4) (4 * ws.length) from by
        rw [List.length_cons]; omega,
    List.append_assoc]

theorem writeData_cons_short (target : List Nat) (w : Nat) (ws : List Nat)
    (h : target.length < 4) :
    writeData target (w :: ws) = (leBytes w).take target.length := by
  unfold writeData
  rw [serializeLE_cons, List.take_append_eq_append_take,
    show target.length - (leBytes w).length = 0 from by rw [leBytes_length]; omega,
    List.take_zero, List.append_nil,
    show min target.length (4 * (w :: ws).length) = target.length from by
      rw [List.length_cons]; omega,
    List.drop_eq_nil_of_le (le_refl _), List.append_nil]

theorem fillBuf_eq (ws : List Nat) :
    ∀ (target : List Nat), (∀ w ∈ ws, w < 2 ^ 32) →
      fillBuf target ws = Except.ok (writeData target ws) := by
  induction ws with
  | nil =>
    intro target _
    show fillLoop target [] 0 = Except.ok (writeData target [])
    unfold writeData
    rw [serializeLE_nil, List.take_nil, List.nil_append,
      show min target.length (4 * ([] : List Nat).length) = 0 from by simp,
      List.drop_zero]
    rfl
  | cons w ws ih =>
    intro target hw
    show fillLoop target (w :: ws) 0 = Except.ok (writeData target (w :: ws))
    unfold fillLoop
    rw [int32ToWord_ok w (hw w (List.Mem.head _))]
    simp only [ok_bind]
    by_cases hL : 4 ≤ target.length
    · have hc : jsCopyInto target (leBytes w) (0 * 4) = leBytes w ++ target.drop 4 := by
        simp only [jsCopyInto, leBytes_length]
        rw [show (0 * 4 : Nat) = 0 from rfl, List.take_zero, List.nil_append,
          show min 4 (target.length - 0) = 4 from by omega,
          List.take_of_length_le (le_of_eq (leBytes_length w)),
          show (0 + 4 : Nat) = 4 from rfl]
      rw [hc, fillLoop_shift ws (leBytes w) (target.drop 4) 0 (leBytes_length w),
        show fillLoop (target.drop 4) ws 0 = fillBuf (target.drop 4) ws from rfl,
        ih (target.drop 4) (fun x hx => hw x (List.Mem.tail _ hx))]
      simp only [Except.map]
      rw [writeData_cons target w ws hL]
    · have hc : jsCopyInto target (leBytes w) (0 * 4) = (leBytes w).take target.length := by
        simp only [jsCopyInto, leBytes_length]
        rw [show (0 * 4 : Nat) = 0 from rfl, List.take_zero, List.nil_append,
          show min 4 (target.length - 0) = target.length from by omega,
          List.drop_eq_nil_of_le (by omega), List.append_nil]
      rw [hc, fillLoop_beyond ws _ 1 (fun x hx => hw x (List.Mem.tail _ hx))
        (by rw [List.length_take, leBytes_length]; omega)]
      rw [writeData_cons_short target w ws (by omega)]

theorem bFill_length (size : Nat) (data : List Nat) : (bFill size data).length = size := by
  unfold bFill
  rw [List.length_append, List.length_take, List.length_replicate, serializeLE_length]
  omega

theorem bFill_nil (s : Nat) : bFill s [] = List.replicate s 0 := by
  unfold bFill
  rw [serializeLE_nil, List.take_nil, List.nil_append]
  congr 1
  simp

theorem writeData_replicate (ws : List Nat) :
    writeData (List.replicate (ws.length * 4) 0) ws = serializeLE ws := by
  unfold writeData
  rw [List.length_replicate,
    List.take_of_length_le (by rw [serializeLE_length]; omega),
    show min (ws.length * 4) (4 * ws.length) = 4 * ws.length from by omega,
    List.drop_replicate,
    show ws.length * 4 - 4 * ws.length = 0 from by omega]
  simp

theorem writeData_bFill (L : Nat) (d new : List Nat) :
    writeData (bFill L d) (d ++ new) = bFill L (d ++ new) := by
  unfold writeData
  rw [bFill_length]
  conv_lhs =>
    rw [show bFill L d
      = (serializeLE d).take L ++ List.replicate (L - min L (4 * d.length)) 0 from rfl]
  rw [List.drop_append_eq_append_drop,
    List.drop_eq_nil_of_le (by
      rw [List.length_take, serializeLE_length, List.length_append]
      omega),
    List.nil_append, List.drop_replicate, List.length_take, serializeLE_length]
  unfold bFill
  congr 2
  rw [List.length_append]
  omega

/-! ### Shape invariants of the record tables (C9) -/

theorem updateA_inv (m : MapA) (id0 : Nat) (e0 : EepDataA)
    (hm : mapInvA m) (he : entryInvA e0) : mapInvA (updateA m id0 e0) := by
  intro id e h
  unfold updateA at h
  split at h
  · simp only [Option.some.injEq] at h
    rw [← h]
    exact he
  · exact hm id e h

theorem updateB_inv (m : MapB) (id0 : Nat) (e0 : EepDataB)
    (hm : mapInvB m) (he : entryInvB e0) : mapInvB (updateB m id0 e0) := by
  intro id e h
  unfold updateB at h
  split at h
  · simp only [Option.some.injEq] at h
    rw [← h]
    exact he
  · exact hm id e h

theorem foldlM_inv {σ α : Type} (P : σ → Prop) (f : σ → α → Except String σ)
    (hstep : ∀ s a s', f s a = Except.ok s' → P s → P s') :
    ∀ (l : List α) (init res : σ), l.foldlM f init = Except.ok res → P init → P res := by
  intro l
  induction l with
  | nil =>
    intro init res h hP
    simp only [List.foldlM_nil] at h
    rw [show (pure init : Except String σ) = Except.ok init from rfl] at h
    injection h with h
    exact h ▸ hP
  | cons a l ih =>
    intro init res h hP
    simp only [List.foldlM_cons] at h
    obtain ⟨s1, hf, h⟩ := bind_ok_inv h
    exact ih s1 res h (hstep init a s1 hf hP)

theorem mapM_ok_forall {α β : Type} (f : α → Except String β) (Q : β → Prop)
    (hf : ∀ a b, f a = Except.ok b → Q b) :
    ∀ (l : List α) (bs : List β), l.mapM f = Except.ok bs → ∀ b ∈ bs, Q b := by
  intro l
  induction l with
  | nil =>
    intro bs h b hb
    simp only [List.mapM_nil] at h
    rw [show (pure [] : Except String (List β)) = Except.ok [] from rfl] at h
    injection h with h
    rw [← h] at hb
    exact absurd hb (List.not_mem_nil b)
  | cons a l ih =>
    intro bs h b hb
    simp only [List.mapM_cons] at h
    obtain ⟨b0, hfa, h⟩ := bind_ok_inv h
    obtain ⟨bs0, hml, h⟩ := bind_ok_inv h
    rw [show (pure (b0 :: bs0) : Except String (List β)) = Except.ok (b0 :: bs0) from rfl] at h
    injection h with h
    rw [← h] at hb
    rcases List.mem_cons.mp hb with hbe | hbm
    · rw [hbe]
      exact hf a b0 hfa
    · exact ih bs0 hml b hbm

theorem overlapLoop_words (blockBuf : List Nat) (fixL startL : Nat) :
    ∀ (fuel : Nat) (endData : List Nat) (ofs : Nat) (res : List Nat),
      overlapLoop blockBuf fixL startL fuel endData ofs = Except.ok res →
      (∀ w ∈ endData, w < 2 ^ 32) → ∀ w ∈ res, w < 2 ^ 32 := by
  intro fuel
  induction fuel with
  | zero =>
    intro endData ofs res h
    exact absurd h (by simp [overlapLoop])
  | succ fuel ih =>
    intro endData ofs res h hw
    unfold overlapLoop at h
    obtain ⟨word, hrd, h⟩ := bind_ok_inv h
    try simp only [] at h
    have hw' : ∀ x ∈ endData ++ [word], x < 2 ^ 32 := by
      intro x hx
      rcases List.mem_append.mp hx with h1 | h2
      · exact hw x h1
      · rw [List.mem_singleton.mp h2]
        exact readUint32_lt hrd
    split at h
    · exact ih _ _ _ h hw'
    · simp only [Except.ok.injEq] at h
      rw [← h]
      exact hw'

theorem accumLoopA_words (df : List Nat) (blocks : List DFBlock) (widx : Int)
    (fixL rwp : Nat) (nextBlock : Option Nat) :
    ∀ (fuel : Nat) (data : List Nat) (ofs : Nat) (res : List Nat),
      accumLoopA df blocks widx fixL rwp nextBlock fuel data ofs = Except.ok res →
      (∀ w ∈ data, w < 2 ^ 32) → ∀ w ∈ res, w < 2 ^ 32 := by
  intro fuel
  induction fuel with
  | zero =>
    intro data ofs res h
    exact absurd h (by simp [accumLoopA])
  | succ fuel ih =>
    intro data ofs res h hw
    unfold accumLoopA at h
    try simp only [] at h
    by_cases haddr : ((widx - (ofs : Int)) * 8 = (rwp : Int))
    · rw [if_pos haddr] at h
      split at h
      · split at h
        · obtain ⟨finishing, hov, h⟩ := bind_ok_inv h
          simp only [Except.ok.injEq] at h
          rw [← h]
          intro x hx
          rcases List.mem_append.mp hx with h1 | h2
          · exact hw x h1
          · unfold getOverlapData at hov
            exact overlapLoop_words _ _ _ _ _ _ _ hov
              (fun y hy => absurd hy (List.not_mem_nil y)) x h2
        · exact absurd h (by simp)
      · exact absurd h (by simp)
    · rw [if_neg haddr] at h
      obtain ⟨word, hrd, h⟩ := bind_ok_inv h
      try simp only [] at h
      have hw' : ∀ x ∈ data ++ [word], x < 2 ^ 32 := by
        intro x hx
        rcases List.mem_append.mp hx with h1 | h2
        · exact hw x h1
        · rw [List.mem_singleton.mp h2]
          exact readUint32_lt hrd
      split at h
      · exact ih _ _ _ h hw'
      · simp only [Except.ok.injEq] at h
        rw [← h]
        exact hw'

theorem readDataEntryA_words (df : List Nat) (blocks : List DFBlock) (widx : Int)
    (id cksRef rwp : Nat) (nextBlock : Option Nat) (data : List Nat)
    (h : readDataEntryA df blocks widx id cksRef rwp nextBlock = Except.ok data) :
    ∀ w ∈ data, w < 2 ^ 32 := by
  unfold readDataEntryA at h
  obtain ⟨d0, hphase, h⟩ := bind_ok_inv h
  try simp only [] at h
  split at h
  · exact absurd h (by simp)
  · simp only [Except.ok.injEq] at h
    rw [← h]
    unfold accumPhaseA at hphase
    obtain ⟨word, -, hacc⟩ := bind_ok_inv hphase
    try simp only [] at hacc
    exact accumLoopA_words df blocks widx _ rwp nextBlock _ _ _ _ hacc
      (fun y hy => absurd hy (List.not_mem_nil y))

theorem popBodyA_inv (df : List Nat) (blocks : List DFBlock)
    (blockNum blockId rwp : Nat) (nextBlock : Option Nat) (blockBuf : List Nat)
    (st : MapA) (i word : Nat) (st' : MapA)
    (h : popBodyA df blocks blockNum blockId rwp nextBlock blockBuf st i word =
      Except.ok st') (hst : mapInvA st) : mapInvA st' := by
  unfold popBodyA at h
  obtain ⟨cksRef, -, h⟩ := bind_ok_inv h
  try simp only [] at h
  cases hde : readDataEntryA df blocks (jsSar word 0x10) (word % 0x10000) cksRef rwp
      nextBlock with
  | error e =>
    rw [hde] at h
    try simp only [] at h
    rw [if_neg (by decide)] at h
    simp only [Except.ok.injEq] at h
    exact h ▸ hst
  | ok d =>
    rw [hde] at h
    try simp only [] at h
    split at h
    · obtain ⟨dataBuf, hfb, h⟩ := bind_ok_inv h
      simp only [Except.ok.injEq] at h
      rw [← h]
      refine updateA_inv _ _ _ hst ?_
      have hwords : ∀ w ∈ d, w < 2 ^ 32 :=
        readDataEntryA_words df blocks _ _ cksRef rwp nextBlock d hde
      rw [fillBuf_eq d _ hwords] at hfb
      injection hfb with hfb
      refine ⟨rfl, hwords, ?_⟩
      show dataBuf = serializeLE d
      rw [← hfb, writeData_replicate]
    · simp only [Except.ok.injEq] at h
      exact h ▸ hst

theorem popLoopA_inv (df : List Nat) (blocks : List DFBlock)
    (blockNum blockId rwp : Nat) (nextBlock : Option Nat) (blockBuf : List Nat) :
    ∀ (fuel i word : Nat) (st st' : MapA),
      popLoopA df blocks blockNum blockId rwp nextBlock blockBuf fuel i word st =
        Except.ok st' → mapInvA st → mapInvA st' := by
  intro fuel
  induction fuel with
  | zero =>
    intro i word st st' h
    exact absurd h (by simp [popLoopA])
  | succ fuel ih =>
    intro i word st st' h hst
    unfold popLoopA at h
    split at h
    · simp only [Except.ok.injEq] at h
      exact h ▸ hst
    · obtain ⟨st1, hbody, h⟩ := bind_ok_inv h
      try simp only [] at h
      obtain ⟨w2, -, h⟩ := bind_ok_inv h
      try simp only [] at h
      have hst1 := popBodyA_inv df blocks blockNum blockId rwp nextBlock blockBuf
        st i word st1 hbody hst
      split at h
      · simp only [Except.ok.injEq] at h
        exact h ▸ hst1
      · exact ih _ _ _ _ h hst1

theorem popBlockA_inv (df : List Nat) (blocks : List DFBlock) (active : List Nat)
    (st : MapA) (blockId : Nat) (st' : MapA)
    (h : popBlockA df blocks active st blockId = Except.ok st') (hst : mapInvA st) :
    mapInvA st' := by
  unfold popBlockA at h
  split at h
  · exact absurd h (by simp)
  · split at h
    · exact absurd h (by simp)
    · obtain ⟨word, -, h⟩ := bind_ok_inv h
      exact popLoopA_inv df blocks _ _ _ _ _ _ _ _ _ _ h hst

theorem v850Construct_inv (df : List Nat) (st : StateA)
    (h : v850Construct df = Except.ok st) : mapInvA st.eep := by
  unfold v850Construct at h
  obtain ⟨nB, -, h⟩ := bind_ok_inv h
  try simp only [] at h
  obtain ⟨blocks, -, h⟩ := bind_ok_inv h
  try simp only [] at h
  obtain ⟨eep, hfold, h⟩ := bind_ok_inv h
  have hinv : mapInvA eep :=
    foldlM_inv mapInvA _
      (fun s a s' hs hP => popBlockA_inv df blocks _ s a s' hs hP)
      _ _ _ hfold (fun id e he => absurd he (by simp [emptyMapA]))
  simp only [Except.ok.injEq] at h
  rw [← h]
  exact hinv

theorem readDataEntryB_inv (eep : MapB) (block : DFBlock) (refAddr : Nat)
    (eep' : MapB) (de : Option EepDataB)
    (h : readDataEntryB eep block refAddr = Except.ok (eep', de))
    (hinv : mapInvB eep) :
    mapInvB eep' ∧ ∀ x, de = some x → entryInvB x := by
  unfold readDataEntryB at h
  obtain ⟨w1, -, h⟩ := bind_ok_inv h
  try simp only [] at h
  obtain ⟨w2, -, h⟩ := bind_ok_inv h
  try simp only [] at h
  obtain ⟨w3, -, h⟩ := bind_ok_inv h
  try simp only [] at h
  obtain ⟨w4, -, h⟩ := bind_ok_inv h
  try simp only [] at h
  split at h
  · simp only [Except.ok.injEq, Prod.mk.injEq] at h
    refine ⟨h.1 ▸ hinv, ?_⟩
    intro x hx
    rw [← h.2] at hx
    exact absurd hx (by simp)
  · split at h
    · simp only [Except.ok.injEq, Prod.mk.injEq] at h
      refine ⟨h.1 ▸ hinv, ?_⟩
      intro x hx
      rw [← h.2] at hx
      exact absurd hx (by simp)
    · split at h
      · simp only [Except.ok.injEq, Prod.mk.injEq] at h
        refine ⟨h.1 ▸ hinv, ?_⟩
        intro x hx
        rw [← h.2] at hx
        exact absurd hx (by simp)
      · rename_i entry heq henc
        obtain ⟨newWords, hnw, h⟩ := bind_ok_inv h
        try simp only [] at h
        obtain ⟨dataBuf0, hfb, h⟩ := bind_ok_inv h
        simp only [Except.ok.injEq, Prod.mk.injEq] at h
        have hentry := hinv _ _ heq
        obtain ⟨hlen, hwords, hbuf⟩ := hentry
        have hnew : ∀ w ∈ newWords, w < 2 ^ 32 :=
          mapM_ok_forall _ (fun w => w < 2 ^ 32)
            (fun a b hab => readUint32_lt hab) _ _ hnw
        have hall : ∀ w ∈ entry.data ++ newWords, w < 2 ^ 32 := by
          intro x hx
          rcases List.mem_append.mp hx with h1 | h2
          · exact hwords x h1
          · exact hnew x h2
        rw [fillBuf_eq _ _ hall] at hfb
        injection hfb with hfb
        have hbuf0 : dataBuf0 = bFill (4 * entry.encLen) (entry.data ++ newWords) := by
          rw [← hfb, hbuf, writeData_bFill]
        have hinvNew : entryInvB
            { entry with
              data := entry.data ++ newWords, dataBuf := dataBuf0,
              widx := jsSar w4 0x10,
              widx_abs := jsSar w4 0x10 + 0x800 * (block.id : Int),
              addr := refAddr + 0x800 * block.id } := by
          refine ⟨?_, hall, ?_⟩
          · show dataBuf0.length = 4 * entry.encLen
            rw [hbuf0, bFill_length]
          · show dataBuf0 = bFill (4 * entry.encLen) (entry.data ++ newWords)
            exact hbuf0
        refine ⟨?_, ?_⟩
        · rw [← h.1]
          exact updateB_inv _ _ _ hinv hinvNew
        · intro x hx
          rw [← h.2] at hx
          injection hx with hx
          rw [← hx]
          exact hinvNew

theorem popSlotB_inv (block : DFBlock) (eep : MapB) (refAddr : Nat) (eep' : MapB)
    (h : popSlotB block eep refAddr = Except.ok eep') (hinv : mapInvB eep) :
    mapInvB eep' := by
  unfold popSlotB at h
  obtain ⟨⟨e1, de⟩, hde, h⟩ := bind_ok_inv h
  obtain ⟨hinv1, hde1⟩ := readDataEntryB_inv eep block refAddr e1 de hde hinv
  cases de with
  | none =>
    try simp only [] at h
    injection h with h
    exact h ▸ hinv1
  | some d =>
    try simp only [] at h
    cases hcur : e1 d.id with
    | none =>
      rw [hcur] at h
      exact absurd h (by simp)
    | some cur =>
      rw [hcur] at h
      try simp only [] at h
      split at h
      · injection h with h
        exact h ▸ hinv1
      · injection h with h
        rw [← h]
        exact updateB_inv _ _ _ hinv1 (hde1 d rfl)

theorem findActiveRwpLoop_inv (page : DFBlock) :
    ∀ (fuel rwp rh : Nat) (dwp : Int) (eep eep' : MapB) (r : Nat),
      findActiveRwpLoop page fuel rwp rh dwp eep = Except.ok (eep', r) →
      mapInvB eep → mapInvB eep' := by
  intro fuel
  induction fuel with
  | zero =>
    intro rwp rh dwp eep eep' r h
    exact absurd h (by simp [findActiveRwpLoop])
  | succ fuel ih =>
    intro rwp rh dwp eep eep' r h hinv
    unfold findActiveRwpLoop at h
    split at h
    · obtain ⟨⟨e1, de⟩, hde, h⟩ := bind_ok_inv h
      have hinv1 := (readDataEntryB_inv _ _ _ _ _ hde hinv).1
      cases de with
      | some dataEntry =>
        try simp only [] at h
        split at h
        · exact ih _ _ _ _ _ _ h hinv1
        · exact ih _ _ _ _ _ _ h hinv1
      | none =>
        try simp only [] at h
        exact ih _ _ _ _ _ _ h hinv1
    · simp only [Except.ok.injEq, Prod.mk.injEq] at h
      exact h.1 ▸ hinv

theorem popBlockB_inv (active : List Nat) (st : List DFBlock × MapB) (blockId : Nat)
    (st' : List DFBlock × MapB)
    (h : popBlockB active st blockId = Except.ok st') (hinv : mapInvB st.2) :
    mapInvB st'.2 := by
  obtain ⟨blocks, eep⟩ := st
  unfold popBlockB at h
  try simp only [] at h
  split at h
  · exact absurd h (by simp)
  · split at h
    · exact absurd h (by simp)
    · split at h
      · obtain ⟨y, hrw, h⟩ := bind_ok_inv h
        obtain ⟨e1, r1⟩ := y
        have hinv1 : mapInvB e1 := by
          unfold findActiveRwp at hrw
          exact findActiveRwpLoop_inv _ _ _ _ _ _ _ _ hrw hinv
        try simp only [] at h
        obtain ⟨e2, hfold, h⟩ := bind_ok_inv h
        have hinv2 : mapInvB e2 :=
          foldlM_inv mapInvB _ (fun s a s' hs hP => popSlotB_inv _ s a s' hs hP)
            _ _ _ hfold hinv1
        simp only [Except.ok.injEq] at h
        rw [← h]
        exact hinv2
      · obtain ⟨y, hrw, h⟩ := bind_ok_inv h
        obtain ⟨e1, r1⟩ := y
        have hinv1 : mapInvB e1 := by
          simp only [Except.ok.injEq, Prod.mk.injEq] at hrw
          exact hrw.1 ▸ hinv
        try simp only [] at h
        obtain ⟨e2, hfold, h⟩ := bind_ok_inv h
        have hinv2 : mapInvB e2 :=
          foldlM_inv mapInvB _ (fun s a s' hs hP => popSlotB_inv _ s a s' hs hP)
            _ _ _ hfold hinv1
        simp only [Except.ok.injEq] at h
        rw [← h]
        exact hinv2

theorem popTableStep_invB (cf : List Nat) (tb : RhTable) (eep : MapB) (i : Nat)
    (eep' : MapB) (h : popTableStep cf tb eep i = Except.ok eep') (hinv : mapInvB eep) :
    mapInvB eep' := by
  unfold popTableStep at h
  obtain ⟨word, -, h⟩ := bind_ok_inv h
  try simp only [] at h
  split at h
  · exact absurd h (by simp)
  · split at h
    · exact absurd h (by simp)
    · simp only [Except.ok.injEq] at h
      rw [← h]
      refine updateB_inv _ _ _ hinv ?_
      refine ⟨?_, ?_, ?_⟩
      · show (List.replicate ((jsSar word 0x10).toNat * 4) 0).length
          = 4 * (jsSar word 0x10).toNat
        rw [List.length_replicate]
        omega
      · intro w hw
        exact absurd hw (List.not_mem_nil w)
      · show List.replicate ((jsSar word 0x10).toNat * 4) 0
          = bFill (4 * (jsSar word 0x10).toNat) []
        rw [bFill_nil, Nat.mul_comm]

theorem rh850Construct_inv (df cf : List Nat) (th : Nat) (st : StateB)
    (h : rh850Construct df cf th = Except.ok st) : mapInvB st.eep := by
  unfold rh850Construct at h
  obtain ⟨nB, -, h⟩ := bind_ok_inv h
  try simp only [] at h
  obtain ⟨⟨tb, eep0⟩, htb, h⟩ := bind_ok_inv h
  try simp only [] at h
  have hinv0 : mapInvB eep0 := by
    unfold tableStage at htb
    obtain ⟨tb1, -, htb⟩ := bind_ok_inv htb
    try simp only [] at htb
    obtain ⟨eep1, hpop, htb⟩ := bind_ok_inv htb
    simp only [Except.ok.injEq, Prod.mk.injEq] at htb
    unfold populateDataInfoWTable at hpop
    have := foldlM_inv mapInvB _
      (fun s a s' hs hP => popTableStep_invB cf tb1 s a s' hs hP)
      _ _ _ hpop (fun id e he => absurd he (by simp [emptyMapB]))
    exact htb.2 ▸ this
  obtain ⟨blocks, -, h⟩ := bind_ok_inv h
  try simp only [] at h
  obtain ⟨⟨blocks2, eep2⟩, hfold, h⟩ := bind_ok_inv h
  have hinv2 : mapInvB eep2 :=
    foldlM_inv (fun (s : List DFBlock × MapB) => mapInvB s.2) _
      (fun s a s' hs hP => popBlockB_inv _ s a s' hs hP) _ _ _ hfold hinv0
  try simp only [] at h
  simp only [Except.ok.injEq] at h
  rw [← h]
  exact hinv2

/-- C9 counterexample: the family-B run on `dfB1`/`cfB1` ends with an entry
whose encoded byte length is `4` (so the spec's `lengthWords` is `1` and the
claimed byte count `lengthWords * 4 = 4`), yet whose byte buffer has length
`16 = encLen * 4` — the family-B stub allocates `length * 4` bytes where
`length` is already a byte count — and whose `words` list holds `2` words,
so the buffer is not the serialization of the words either. -/
theorem c9_bytes_counterexample :
    (rh850Eep dfB1 cfB1 0 0x10).map
      (fun e => (e.encLen, e.dataBuf.length, e.data.length)) =
      some ((4 : Nat), (16 : Nat), (2 : Nat)) := by
  unfold rh850Eep
  rw [dfB1_state]
  decide

/-- C9 (amended): family A keeps the claimed invariant — every entry of a
successful construction has `length` counting its words and `bytes` equal
to the little-endian serialization of `words`, of byte length
`4 * words.length`.  Family B does not: an entry's byte buffer keeps its
allocation size of `4 * encLen` bytes (`encLen` the table-encoded BYTE
length, so sixteen times `lengthWords`), holding the serialization of
`words` truncated to that size and zero-padded. -/
theorem c9_bytes_amended :
    (∀ df st, v850Construct df = Except.ok st →
      ∀ id e, st.eep id = some e →
        e.length = e.data.length ∧ e.dataBuf = serializeLE e.data ∧
          e.dataBuf.length = 4 * e.data.length) ∧
    (∀ df cf th st, rh850Construct df cf th = Except.ok st →
      ∀ id e, st.eep id = some e →
        e.dataBuf.length = 4 * e.encLen ∧ e.dataBuf = bFill (4 * e.encLen) e.data) := by
  constructor
  · intro df st h id e he
    obtain ⟨h1, -, h3⟩ := v850Construct_inv df st h id e he
    exact ⟨h1, h3, by rw [h3, serializeLE_length]⟩
  · intro df cf th st h id e he
    obtain ⟨h1, -, h3⟩ := rh850Construct_inv df cf th st h id e he
    exact ⟨h1, h3⟩

/-- Witness for the amended C9 at the concrete runs `dfA2` (family A) and
`dfB1`/`cfB1` (family B). -/
theorem c9_bytes_amended_witness :
    entryA2.dataBuf = serializeLE entryA2.data ∧
    entryB1b.dataBuf = bFill (4 * entryB1b.encLen) entryB1b.data :=
  ⟨(c9_bytes_amended.1 dfA2 stA2 dfA2_state 5 entryA2 rfl).2.1,
   (c9_bytes_amended.2 dfB1 cfB1 0 stB1 dfB1_state 0x10 entryB1b rfl).2⟩

end EepEmu
